import Mathlib

/-!
Verification model of the incremental face-identity clustering engine in
`Scripts/face_recognizer_insightface.py` (class `InsightFaceRecognizer`).

The SQLite store is modelled as in-memory lists kept in rowid (insertion)
order: table scans and joins without `ORDER BY` iterate rows in that order,
and `persons` uses `AUTOINCREMENT`, modelled by the `nextPersonId` counter
(deleting rows never resets it).  Timestamp columns (`created_at`,
`updated_at`) are maintained by the database clock and are irrelevant to
every property below, so they are not part of the model.

Embeddings are finite rational vectors; the arithmetic the code performs on
them (`np.mean(..., axis=0)`, `(old + emb) / 2`) is modelled exactly.  The
external library call `sklearn.metrics.pairwise.cosine_similarity` is an
uninterpreted deterministic function `Sim` supplied as a parameter
(its float output cannot be represented exactly; every theorem holds for an
arbitrary similarity oracle, and concrete witnesses instantiate it).
`sklearn.cluster.DBSCAN(metric='cosine')` is modelled by an executable
translation of its published algorithm: neighbourhoods are closed balls of
cosine distance `1 - sim`, core points have at least `min_samples`
neighbours (the point itself included), and labels are produced by the
scan-in-index-order / depth-first-expansion procedure of
`sklearn.cluster._dbscan_inner`.
-/

attribute [local semireducible] Rat.add Rat.mul Rat.sub Rat.inv

namespace FaceRec

/-- Row of the `faces` table (timestamps omitted, see module docstring). -/
structure Face where
  id : Nat
  imageId : Nat
  x : Int
  y : Int
  width : Int
  height : Int
  confidence : ℚ
  embedding : Option (List ℚ)
  personId : Option Nat
  ignored : Bool
  deriving DecidableEq, Repr

/-- Row of the `persons` table (timestamps omitted). -/
structure Person where
  id : Nat
  name : String
  confirmed : Bool
  deriving DecidableEq, Repr

/-- The database state: both tables in rowid order plus the
`AUTOINCREMENT` counter of `persons`. -/
structure DB where
  faces : List Face
  persons : List Person
  nextPersonId : Nat
  deriving DecidableEq, Repr

/-- The cosine-similarity oracle (`sklearn cosine_similarity` on two
single-row inputs). -/
abbrev Sim := List ℚ → List ℚ → ℚ

/-- Componentwise sum of two vectors (`numpy +`). -/
def vecAdd (a b : List ℚ) : List ℚ := List.zipWith (· + ·) a b

/-- Sum of a nonempty family of vectors. -/
def vecSum : List (List ℚ) → List ℚ
  | [] => []
  | v :: vs => vs.foldl vecAdd v

/-- `np.mean(vs, axis=0)`: componentwise sum divided by the count. -/
def vecMean (vs : List (List ℚ)) : List ℚ :=
  (vecSum vs).map (fun q => q / (vs.length : ℚ))

/-- `(old_centroid + embedding) / 2`. -/
def halfSum (a b : List ℚ) : List ℚ := (vecAdd a b).map (fun q => q / 2)

/-- `SELECT id, embedding FROM faces WHERE embedding IS NOT NULL`
(input of `cluster_faces`; note: no condition on `ignored`). -/
def batchFaceData (db : DB) : List Face :=
  db.faces.filter (fun f => f.embedding.isSome)

/-- `SELECT id, embedding FROM faces WHERE embedding IS NOT NULL AND
person_id IS NULL` (input of `cluster_new_faces`; note: no condition on
`ignored`). -/
def newFacesQuery (db : DB) : List Face :=
  db.faces.filter (fun f => f.embedding.isSome && f.personId.isNone)

/-- The `(id, embedding)` pairs the cursor yields for a face list. -/
def facePairs (fs : List Face) : List (Nat × List ℚ) :=
  fs.map (fun f => (f.id, f.embedding.getD []))

/-- `SELECT p.id, f.embedding FROM persons p JOIN faces f ON p.id =
f.person_id WHERE f.embedding IS NOT NULL` (person-major scan in rowid
order; the `p.name` column is only used for progress printing and is
dropped). -/
def existingData (db : DB) : List (Nat × List ℚ) :=
  (db.persons.map (fun p =>
    (db.faces.filter (fun f => f.personId == some p.id && f.embedding.isSome)).map
      (fun f => (p.id, f.embedding.getD [])))).flatten

/-- One step of building the `person_centroids` dict: append the embedding
to the entry of its person, creating the entry at the end on first sight
(Python dict insertion order). -/
def addRow (acc : List (Nat × List (List ℚ))) (row : Nat × List ℚ) :
    List (Nat × List (List ℚ)) :=
  if acc.any (fun e => e.1 == row.1) then
    acc.map (fun e => if e.1 == row.1 then (e.1, e.2 ++ [row.2]) else e)
  else acc ++ [(row.1, [row.2])]

/-- `person_centroids` after grouping and averaging (`np.mean(..., axis=0)`
per person). -/
def buildCentroids (rows : List (Nat × List ℚ)) : List (Nat × List ℚ) :=
  (rows.foldl addRow []).map (fun e => (e.1, vecMean e.2))

/-- The inner scan of Phase 1 of `cluster_new_faces`: fold over the
centroid dict carrying `(best_person_id, best_similarity)`, starting from
`(None, 0)`, accepting a centroid when its similarity strictly exceeds both
the running best and the threshold. -/
def findBest (sim : Sim) (thr : ℚ) (emb : List ℚ) :
    List (Nat × List ℚ) → Option Nat × ℚ → Option Nat × ℚ
  | [], acc => acc
  | c :: rest, (best, bestSim) =>
    let s := sim emb c.2
    if bestSim < s ∧ thr < s then findBest sim thr emb rest (some c.1, s)
    else findBest sim thr emb rest (best, bestSim)

/-- `UPDATE faces SET person_id = ? WHERE id = ?`. -/
def updateFacePerson (faces : List Face) (fid : Nat) (pid : Option Nat) :
    List Face :=
  faces.map (fun f => if f.id == fid then { f with personId := pid } else f)

/-- Accumulator of Phase 1 of `cluster_new_faces`: the centroid dict, the
`assigned_count`, the `unmatched_faces` list and the current `faces`
table. -/
structure P1Acc where
  cents : List (Nat × List ℚ)
  count : Nat
  unmatched : List (Nat × List ℚ)
  faces : List Face
  deriving DecidableEq, Repr

/-- Processing of one unassigned face in Phase 1 of `cluster_new_faces`:
find the best centroid; on `if best_person_id:` (Python truthiness: `None`
and `0` are both falsy) assign the face, bump the count and move the
winning centroid to `(old + emb) / 2`; otherwise defer the face to the
unmatched list. -/
def processFace (sim : Sim) (thr : ℚ) (acc : P1Acc) (fc : Nat × List ℚ) :
    P1Acc :=
  match (findBest sim thr fc.2 acc.cents (none, 0)).1 with
  | some pid =>
    if pid ≠ 0 then
      { cents := acc.cents.map
          (fun c => if c.1 == pid then (c.1, halfSum c.2 fc.2) else c),
        count := acc.count + 1,
        unmatched := acc.unmatched,
        faces := updateFacePerson acc.faces fc.1 (some pid) }
    else { acc with unmatched := acc.unmatched ++ [fc] }
  | none => { acc with unmatched := acc.unmatched ++ [fc] }

/-- Phase 1 of `cluster_new_faces` over all unassigned faces. -/
def phase1 (sim : Sim) (thr : ℚ) (cents0 : List (Nat × List ℚ))
    (pairs : List (Nat × List ℚ)) (faces0 : List Face) : P1Acc :=
  pairs.foldl (processFace sim thr) ⟨cents0, 0, [], faces0⟩

/-! ### DBSCAN (`sklearn.cluster.DBSCAN`, `metric='cosine'`)  -/

/-- Labels array access; indices are always in range when the algorithm
runs, the default is arbitrary. -/
def lget : List (Option Nat) → Nat → Option Nat
  | [], _ => some 0
  | x :: _, 0 => x
  | _ :: xs, n + 1 => lget xs n

/-- Labels array update. -/
def lset : List (Option Nat) → Nat → Option Nat → List (Option Nat)
  | [], _, _ => []
  | _ :: xs, 0, v => v :: xs
  | x :: xs, n + 1, v => x :: lset xs n v

/-- Point access in the embedding matrix. -/
def vget (pts : List (List ℚ)) (i : Nat) : List ℚ := pts.getD i []

/-- Indices whose cosine distance `1 - sim` to point `i` is at most `eps`
(closed ball, the point itself included — sklearn `radius_neighbors`). -/
def nbrList (sim : Sim) (eps : ℚ) (pts : List (List ℚ)) (i : Nat) :
    List Nat :=
  (List.range pts.length).filter
    (fun j => 1 - sim (vget pts i) (vget pts j) ≤ eps)

/-- Core point: at least `min_samples` neighbours. -/
def isCorePt (sim : Sim) (eps : ℚ) (minPts : Nat) (pts : List (List ℚ))
    (i : Nat) : Bool :=
  minPts ≤ (nbrList sim eps pts i).length

/-- Depth-first cluster expansion of `_dbscan_inner`: pop an index; if it
is unlabelled, label it with the current cluster and, when it is core, push
its neighbourhood.  Fuel bounds the number of pops (every push comes from
labelling a point, so `n*n + n + 1` pops always suffice). -/
def dfs (nbrs : Nat → List Nat) (core : Nat → Bool) (lab : Nat) :
    Nat → List Nat → List (Option Nat) → List (Option Nat)
  | 0, _, L => L
  | _ + 1, [], L => L
  | fuel + 1, i :: st, L =>
    if lget L i = none then
      dfs nbrs core lab fuel (if core i then nbrs i ++ st else st)
        (lset L i (some lab))
    else dfs nbrs core lab fuel st L

/-- Outer scan of `_dbscan_inner`: walk the points in index order; an
unlabelled core point starts the next cluster. -/
def dbscanOuter (nbrs : Nat → List Nat) (core : Nat → Bool) (fuel : Nat) :
    List Nat → Nat → List (Option Nat) → List (Option Nat)
  | [], _, L => L
  | i :: rest, nextLab, L =>
    if lget L i = none ∧ core i = true then
      dbscanOuter nbrs core fuel rest (nextLab + 1)
        (dfs nbrs core nextLab fuel [i] L)
    else dbscanOuter nbrs core fuel rest nextLab L

/-- `DBSCAN(eps, min_samples, metric='cosine').fit_predict(pts)`:
`none` is the noise label `-1`. -/
def dbscan (sim : Sim) (eps : ℚ) (minPts : Nat) (pts : List (List ℚ)) :
    List (Option Nat) :=
  let n := pts.length
  dbscanOuter (nbrList sim eps pts) (isCorePt sim eps minPts pts)
    (n * n + n + 1) (List.range n) 0 (List.replicate n none)

/-- `unique_clusters`: the distinct non-noise labels, iterated in
ascending order (CPython small-int set iteration order; sklearn labels are
`0..k-1`). -/
def uniqLabels (labels : List (Option Nat)) : List Nat :=
  (List.range labels.length).filter (fun l => labels.contains (some l))

/-- `[ids[i] for i, label in enumerate(labels) if label == cid]`. -/
def memberIds (ids : List Nat) (labels : List (Option Nat)) (cid : Nat) :
    List Nat :=
  ((ids.zip labels).filter (fun p => p.2 == some cid)).map (fun p => p.1)

/-- Assign every face whose id is in `mids` to person `pid` (one `UPDATE`
per member id). -/
def assignAll (faces : List Face) (mids : List Nat) (pid : Nat) :
    List Face :=
  mids.foldl (fun fs fid => updateFacePerson fs fid (some pid)) faces

/-- Creation of one new person in Phase 2 of `cluster_new_faces`:
`INSERT INTO persons (name, confirmed) VALUES ('Person {len(person_centroids)
+ new_people_count + 1}', 0)` followed by assigning the cluster members. -/
def mineStep (numCents : Nat) (ids : List Nat) (labels : List (Option Nat))
    (acc : DB × Nat) (cid : Nat) : DB × Nat :=
  let pid := acc.1.nextPersonId
  let pname := "Person " ++ toString (numCents + acc.2 + 1)
  ({ faces := assignAll acc.1.faces (memberIds ids labels cid) pid,
     persons := acc.1.persons ++ [{ id := pid, name := pname, confirmed := false }],
     nextPersonId := pid + 1 }, acc.2 + 1)

/-- Phase 2 of `cluster_new_faces`: only when at least `min_samples_new`
faces are unmatched, cluster them with `DBSCAN(eps=0.4,
min_samples=min_samples_new, metric='cosine')` and create one new
unconfirmed person per non-noise cluster. -/
def phase2 (sim : Sim) (minNew : Nat) (numCents : Nat)
    (unm : List (Nat × List ℚ)) (db : DB) : DB × Nat :=
  if minNew ≤ unm.length then
    (uniqLabels (dbscan sim (2/5 : ℚ) minNew (unm.map (fun u => u.2)))).foldl
      (mineStep numCents (unm.map (fun u => u.1))
        (dbscan sim (2/5 : ℚ) minNew (unm.map (fun u => u.2))))
      (db, 0)
  else (db, 0)

/-- `cluster_new_faces(similarity_threshold, min_samples_new)`.  The first
component is the resulting store; the second is the Python return value:
`none` when the method hits one of its two early `return` paths (no
unassigned embedded face, or no person owning an embedded face), otherwise
`some (assigned_count, new_people_count)`. -/
def clusterNewFaces (sim : Sim) (thr : ℚ) (minNew : Nat) (db : DB) :
    DB × Option (Nat × Nat) :=
  let nf := newFacesQuery db
  if nf.isEmpty then (db, none)
  else
    let rows := existingData db
    if rows.isEmpty then (db, none)
    else
      let cents0 := buildCentroids rows
      let a := phase1 sim thr cents0 (facePairs nf) db.faces
      let p2 := phase2 sim minNew cents0.length a.unmatched { db with faces := a.faces }
      (p2.1, some (a.count, p2.2))

/-- Body of `cluster_new_faces_loop`: `rem` iterations remain, `it`
iterations are done, `ta`/`tn` are the running totals.  A pass returning
`None` makes the loop's tuple unpacking raise `TypeError`; the whole run is
then `none`. -/
def loopAux (sim : Sim) (thr : ℚ) (minNew : Nat) :
    Nat → Nat → Nat → Nat → DB → Option (DB × Nat × Nat × Nat)
  | 0, it, ta, tn, db => some (db, ta, tn, it)
  | rem + 1, it, ta, tn, db =>
    match clusterNewFaces sim thr minNew db with
    | (_, none) => none
    | (db', some (a, n)) =>
      if a = 0 ∧ n = 0 then some (db', ta + a, tn + n, it + 1)
      else loopAux sim thr minNew rem (it + 1) (ta + a) (tn + n) db'

/-- `cluster_new_faces_loop(similarity_threshold, min_samples_new,
max_iterations)`; returns the final store, `total_assigned`,
`total_new_people` and the number of iterations run. -/
def clusterNewFacesLoop (sim : Sim) (thr : ℚ) (minNew : Nat)
    (maxIter : Nat) (db : DB) : Option (DB × Nat × Nat × Nat) :=
  loopAux sim thr minNew maxIter 0 0 0 db

/-- Store state after `k` successful passes of `cluster_new_faces`. -/
def stateAt (sim : Sim) (thr : ℚ) (minNew : Nat) (db : DB) :
    Nat → Option DB
  | 0 => some db
  | k + 1 =>
    (stateAt sim thr minNew db k).bind (fun d =>
      match clusterNewFaces sim thr minNew d with
      | (d', some _) => some d'
      | (_, none) => none)

/-- The value pair pass `k` (0-indexed) reports, when it runs and
returns one. -/
def passProgress (sim : Sim) (thr : ℚ) (minNew : Nat) (db : DB) (k : Nat) :
    Option (Nat × Nat) :=
  (stateAt sim thr minNew db k).bind
    (fun d => (clusterNewFaces sim thr minNew d).2)

/-- One person creation of `cluster_faces`: person named
`Person {cluster_id + 1}`, then assignment of the members. -/
def batchStep (ids : List Nat) (labels : List (Option Nat)) (db : DB)
    (cid : Nat) : DB :=
  let pid := db.nextPersonId
  { faces := assignAll db.faces (memberIds ids labels cid) pid,
    persons := db.persons ++
      [{ id := pid, name := "Person " ++ toString (cid + 1), confirmed := false }],
    nextPersonId := pid + 1 }

/-- `cluster_faces(eps, min_samples)`: a no-op below `min_samples`
embedded faces; otherwise DBSCAN over every embedded face, then the
destructive reset (`UPDATE faces SET person_id = NULL`;
`DELETE FROM persons`) followed by the fresh assignments. -/
def clusterFaces (sim : Sim) (eps : ℚ) (minSamples : Nat) (db : DB) : DB :=
  let fd := batchFaceData db
  if fd.length < minSamples then db
  else
    let labels := dbscan sim eps minSamples (fd.map (fun f => f.embedding.getD []))
    let db1 : DB :=
      { db with
        faces := db.faces.map (fun f => { f with personId := none }),
        persons := [] }
    (uniqLabels labels).foldl (batchStep (fd.map (fun f => f.id)) labels) db1

/-- `label_person(person_id, name)`: no-op when the person does not exist;
merge into the first other person bearing exactly `name` (reassign the
faces, delete the row); otherwise rename and confirm. -/
def labelPerson (db : DB) (personId : Nat) (name : String) : DB :=
  match db.persons.find? (fun p => p.id == personId) with
  | none => db
  | some _ =>
    match db.persons.find? (fun p => p.name == name && p.id != personId) with
    | some target =>
      { db with
        faces := db.faces.map (fun f =>
          if f.personId == some personId then { f with personId := some target.id } else f),
        persons := db.persons.filter (fun p => p.id != personId) }
    | none =>
      { db with
        persons := db.persons.map (fun p =>
          if p.id == personId then { p with name := name, confirmed := true } else p) }

/-- `SELECT id FROM persons WHERE confirmed = 0` (the subquery of
`delete_unconfirmed_people`). -/
def unconfirmedIds (db : DB) : List Nat :=
  (db.persons.filter (fun p => !p.confirmed)).map (fun p => p.id)

/-- `delete_unconfirmed_people()`: early return when there is no
unconfirmed person; otherwise clear `person_id` on every face assigned to
an unconfirmed person and delete the unconfirmed rows. -/
def deleteUnconfirmedPeople (db : DB) : DB :=
  if (unconfirmedIds db).isEmpty then db
  else
    { db with
      faces := db.faces.map (fun f =>
        match f.personId with
        | some pid => if pid ∈ unconfirmedIds db then { f with personId := none } else f
        | none => f),
      persons := db.persons.filter (fun p => p.confirmed) }

/-! ### Lemmas about the best-centroid scan -/

theorem findBest_of_all_le_thr (sim : Sim) (thr : ℚ) (emb : List ℚ) :
    ∀ (l : List (Nat × List ℚ)) (best : Option Nat) (b : ℚ),
      (∀ c ∈ l, sim emb c.2 ≤ thr) → findBest sim thr emb l (best, b) = (best, b) := by
  intro l
  induction l with
  | nil => intro best b _; rfl
  | cons c rest ih =>
    intro best b h
    have hc : sim emb c.2 ≤ thr := h c (List.mem_cons_self c rest)
    have hrest : ∀ x ∈ rest, sim emb x.2 ≤ thr := fun x hx => h x (List.mem_cons_of_mem c hx)
    simp only [findBest]
    rw [if_neg]
    · exact ih best b hrest
    · rintro ⟨-, h2⟩
      exact absurd hc (not_le.mpr h2)

theorem findBest_frozen (sim : Sim) (thr : ℚ) (emb : List ℚ) :
    ∀ (l : List (Nat × List ℚ)) (best : Option Nat) (b : ℚ),
      (∀ c ∈ l, sim emb c.2 ≤ b) → findBest sim thr emb l (best, b) = (best, b) := by
  intro l
  induction l with
  | nil => intro best b _; rfl
  | cons c rest ih =>
    intro best b h
    have hc : sim emb c.2 ≤ b := h c (List.mem_cons_self c rest)
    have hrest : ∀ x ∈ rest, sim emb x.2 ≤ b := fun x hx => h x (List.mem_cons_of_mem c hx)
    simp only [findBest]
    rw [if_neg]
    · exact ih best b hrest
    · rintro ⟨h1, -⟩
      exact absurd hc (not_le.mpr h1)

theorem findBest_some (sim : Sim) (thr : ℚ) (emb : List ℚ) (p : Nat) :
    ∀ (l : List (Nat × List ℚ)) (best : Option Nat) (b : ℚ),
      (findBest sim thr emb l (best, b)).1 = some p →
      best = some p ∨ ∃ c ∈ l, c.1 = p ∧ thr < sim emb c.2 := by
  intro l
  induction l with
  | nil => intro best b h; exact Or.inl h
  | cons c rest ih =>
    intro best b h
    simp only [findBest] at h
    split at h
    · rename_i hcond
      rcases ih (some c.1) (sim emb c.2) h with h1 | h2
      · exact Or.inr ⟨c, List.mem_cons_self c rest, by
          simpa using h1, hcond.2⟩
      · rcases h2 with ⟨x, hx, hxp, hxs⟩
        exact Or.inr ⟨x, List.mem_cons_of_mem c hx, hxp, hxs⟩
    · rcases ih best b h with h1 | h2
      · exact Or.inl h1
      · rcases h2 with ⟨x, hx, hxp, hxs⟩
        exact Or.inr ⟨x, List.mem_cons_of_mem c hx, hxp, hxs⟩

theorem findBest_max (sim : Sim) (thr : ℚ) (emb : List ℚ) (M : ℚ) :
    ∀ (l : List (Nat × List ℚ)) (best : Option Nat) (b : ℚ),
      l.Pairwise (fun a c => a.1 < c.1) →
      (∃ c ∈ l, sim emb c.2 = M) → (∀ c ∈ l, sim emb c.2 ≤ M) →
      b < M → thr < M →
      ∃ w, findBest sim thr emb l (best, b) = (some w, M) ∧
        ∃ cw, (w, cw) ∈ l ∧ sim emb cw = M ∧
          ∀ c' ∈ l, sim emb c'.2 = M → w ≤ c'.1 := by
  intro l
  induction l with
  | nil => rintro best b - ⟨c, hc, -⟩ - - -; exact absurd hc (List.not_mem_nil c)
  | cons c rest ih =>
    intro best b hpw hex hle hb hthr
    by_cases hc : sim emb c.2 = M
    · refine ⟨c.1, ?_, c.2, by simp, hc, ?_⟩
      · simp only [findBest]
        rw [if_pos (by rw [hc]; exact ⟨hb, hthr⟩)]
        rw [hc]
        exact findBest_frozen sim thr emb rest (some c.1) M
          (fun x hx => hle x (List.mem_cons_of_mem c hx))
      · intro c' hc' hM'
        rcases List.mem_cons.mp hc' with rfl | hmem
        · exact le_refl _
        · exact le_of_lt ((List.pairwise_cons.mp hpw).1 c' hmem)
    · have hcM : sim emb c.2 < M :=
        lt_of_le_of_ne (hle c (List.mem_cons_self c rest)) hc
      have hexr : ∃ x ∈ rest, sim emb x.2 = M := by
        rcases hex with ⟨x, hx, hxM⟩
        rcases List.mem_cons.mp hx with rfl | hmem
        · exact absurd hxM hc
        · exact ⟨x, hmem, hxM⟩
      have hler : ∀ x ∈ rest, sim emb x.2 ≤ M :=
        fun x hx => hle x (List.mem_cons_of_mem c hx)
      have hpwr : rest.Pairwise (fun a c => a.1 < c.1) := (List.pairwise_cons.mp hpw).2
      simp only [findBest]
      split
      · rcases ih (some c.1) (sim emb c.2) hpwr hexr hler hcM hthr with
          ⟨w, hw, cw, hcwmem, hcwM, hleast⟩
        refine ⟨w, hw, cw, List.mem_cons_of_mem c hcwmem, hcwM, ?_⟩
        intro c' hc' hM'
        rcases List.mem_cons.mp hc' with rfl | hmem
        · exact absurd hM' hc
        · exact hleast c' hmem hM'
      · rcases ih best b hpwr hexr hler hb hthr with
          ⟨w, hw, cw, hcwmem, hcwM, hleast⟩
        refine ⟨w, hw, cw, List.mem_cons_of_mem c hcwmem, hcwM, ?_⟩
        intro c' hc' hM'
        rcases List.mem_cons.mp hc' with rfl | hmem
        · exact absurd hM' hc
        · exact hleast c' hmem hM'

/-! ### Concrete oracles and stores used by witnesses and counterexamples -/

/-- Witness similarity oracle: identical vectors are fully similar, the
rest only halfway.  (Any rational-valued oracle stands in for the float
cosine; these values are realizable as true cosines of unit vectors.) -/
def simW : Sim := fun a b => if a = b then 1 else 1/2

/-- Shorthand to build a face row. -/
def mkFace (i : Nat) (e : Option (List ℚ)) (p : Option Nat) (ig : Bool) : Face :=
  { id := i, imageId := 0, x := 0, y := 0, width := 10, height := 10,
    confidence := 9/10, embedding := e, personId := p, ignored := ig }

/-- Phase-1 accumulator for the threshold-boundary witness. -/
def w3acc : P1Acc := ⟨[(1, [1])], 0, [], []⟩

/-- Phase-1 accumulator for the tie-break witness: two persons whose
centroids are equally similar to the incoming embedding. -/
def w8acc : P1Acc := ⟨[(1, [1]), (2, [3])], 0, [], [mkFace 7 (some [2]) none false]⟩

/-- Claim C3: in Phase 1 of `cluster_new_faces` (the per-face step
`processFace`), a face whose similarity to every current centroid is at
most `similarity_threshold` — in particular, whose maximum similarity
equals the threshold exactly or lies below it — is not assigned and is
deferred to the unmatched list; and whenever the step does assign the face
(the assigned count increments), some centroid similarity strictly exceeds
the threshold, so assignment happens only when the maximum strictly exceeds
it. -/
theorem c3_threshold_strict (sim : Sim) (thr : ℚ) (acc : P1Acc)
    (fc : Nat × List ℚ) :
    ((∀ c ∈ acc.cents, sim fc.2 c.2 ≤ thr) →
      processFace sim thr acc fc = { acc with unmatched := acc.unmatched ++ [fc] })
    ∧ ((processFace sim thr acc fc).count = acc.count + 1 →
      ∃ c ∈ acc.cents, thr < sim fc.2 c.2) := by
  constructor
  · intro hall
    have h := findBest_of_all_le_thr sim thr fc.2 acc.cents none 0 hall
    simp only [processFace, h]
  · intro hcount
    rcases hfb : (findBest sim thr fc.2 acc.cents (none, 0)).1 with - | pid
    · simp only [processFace, hfb] at hcount
      omega
    · rcases findBest_some sim thr fc.2 pid acc.cents none 0 hfb with h1 | h2
      · exact absurd h1 (by simp)
      · rcases h2 with ⟨c, hc, -, hs⟩
        exact ⟨c, hc, hs⟩

/-- Witness for C3 at a concrete input: one centroid at similarity `1/2`
with threshold `3/5`; the face is deferred, not assigned. -/
theorem c3_threshold_strict_witness :
    processFace simW (3/5) w3acc (2, [2]) =
      { w3acc with unmatched := w3acc.unmatched ++ [(2, [2])] } :=
  (c3_threshold_strict simW (3/5) w3acc (2, [2])).1 (by decide)

/-- Claim C8: when the centroid dict lists persons in ascending id order
(ids positive), the threshold is nonnegative, and the maximum similarity
strictly exceeds the threshold, the per-face step of `cluster_new_faces`
assigns the face to the person with the least id among those attaining the
maximum — in particular the lowest-id person wins every tie. -/
theorem c8_tie_lowest_id (sim : Sim) (thr : ℚ) (acc : P1Acc)
    (fc : Nat × List ℚ) (hthr : 0 ≤ thr)
    (hsorted : acc.cents.Pairwise (fun a c => a.1 < c.1))
    (hpos : ∀ c ∈ acc.cents, 1 ≤ c.1)
    (c₀ : Nat × List ℚ) (hmem : c₀ ∈ acc.cents)
    (hmax : ∀ c ∈ acc.cents, sim fc.2 c.2 ≤ sim fc.2 c₀.2)
    (hgt : thr < sim fc.2 c₀.2)
    (_htie : ∃ c' ∈ acc.cents, c'.1 ≠ c₀.1 ∧ sim fc.2 c'.2 = sim fc.2 c₀.2) :
    ∃ w cw, (w, cw) ∈ acc.cents ∧ sim fc.2 cw = sim fc.2 c₀.2 ∧
      (∀ c' ∈ acc.cents, sim fc.2 c'.2 = sim fc.2 c₀.2 → w ≤ c'.1) ∧
      (processFace sim thr acc fc).faces = updateFacePerson acc.faces fc.1 (some w) ∧
      (processFace sim thr acc fc).count = acc.count + 1 := by
  rcases findBest_max sim thr fc.2 (sim fc.2 c₀.2) acc.cents none 0 hsorted
      ⟨c₀, hmem, rfl⟩ hmax (lt_of_le_of_lt hthr hgt) hgt with
    ⟨w, hfb, cw, hcwmem, hcwM, hleast⟩
  have hw1 : 1 ≤ w := hpos (w, cw) hcwmem
  refine ⟨w, cw, hcwmem, hcwM, hleast, ?_, ?_⟩ <;>
    · simp only [processFace, hfb]
      rw [if_pos (by omega)]

/-- Similarity oracle whose distinct-vector value `9/10` clears the
default threshold `3/5`. -/
def simHigh : Sim := fun a b => if a = b then 1 else 9/10

/-- Store with one confirmed person owning face 1, and an unassigned face
2 that is marked `ignored`. -/
def ce2db : DB :=
  { faces := [mkFace 1 (some [1]) (some 1) false, mkFace 2 (some [2]) none true],
    persons := [{ id := 1, name := "Alice", confirmed := true }],
    nextPersonId := 2 }

/-- Empty store for the early-return witness. -/
def w10db : DB := { faces := [], persons := [], nextPersonId := 1 }

/-- Claim C10: `cluster_new_faces` returns `None` (instead of the
`(assigned, newPeople)` pair) exactly when there is no unassigned face with
an embedding or no person owns an assigned face with an embedding; in that
case the store is untouched, and `cluster_new_faces_loop` propagates the
`None` (its tuple unpacking fails, so the whole run aborts). -/
theorem c10_none_iff_empty_inputs (sim : Sim) (thr : ℚ) (minNew maxIter : Nat)
    (db : DB) (hmi : 1 ≤ maxIter) :
    ((clusterNewFaces sim thr minNew db).2 = none ↔
      newFacesQuery db = [] ∨ existingData db = []) ∧
    ((clusterNewFaces sim thr minNew db).2 = none →
      (clusterNewFaces sim thr minNew db).1 = db ∧
      clusterNewFacesLoop sim thr minNew maxIter db = none) := by
  have key : newFacesQuery db = [] ∨ existingData db = [] →
      clusterNewFaces sim thr minNew db = (db, none) := by
    intro h
    unfold clusterNewFaces
    rcases h with h | h
    · simp [h]
    · cases hnf : (newFacesQuery db).isEmpty
      · simp [hnf, h]
      · simp [hnf]
  have main : ¬(newFacesQuery db = [] ∨ existingData db = []) →
      ∃ pr, (clusterNewFaces sim thr minNew db).2 = some pr := by
    intro h
    push_neg at h
    unfold clusterNewFaces
    simp [List.isEmpty_iff, h.1, h.2]
  constructor
  · constructor
    · intro hn
      by_contra hcon
      rcases main hcon with ⟨pr, hpr⟩
      rw [hn] at hpr
      exact Option.noConfusion hpr
    · intro h
      rw [key h]
  · intro hn
    have hd : newFacesQuery db = [] ∨ existingData db = [] := by
      by_contra hcon
      rcases main hcon with ⟨pr, hpr⟩
      rw [hn] at hpr
      exact Option.noConfusion hpr
    have heq := key hd
    refine ⟨by rw [heq], ?_⟩
    obtain ⟨m, rfl⟩ : ∃ m, maxIter = m + 1 := ⟨maxIter - 1, by omega⟩
    unfold clusterNewFacesLoop loopAux
    rw [heq]

/-- Witness for C10 at the empty store: no unassigned face exists, so the
pass reports no pair, changes nothing, and aborts the loop. -/
theorem c10_none_iff_empty_inputs_witness :
    ((clusterNewFaces simW (3/5) 30 w10db).2 = none ↔
      newFacesQuery w10db = [] ∨ existingData w10db = []) ∧
    ((clusterNewFaces simW (3/5) 30 w10db).2 = none →
      (clusterNewFaces simW (3/5) 30 w10db).1 = w10db ∧
      clusterNewFacesLoop simW (3/5) 30 1 w10db = none) :=
  c10_none_iff_empty_inputs simW (3/5) 30 1 w10db (by decide)

/-- Counterexample to Claim C2 at a concrete store: face 2 has
`ignored = true`, a non-null embedding and no assignment, yet
`cluster_new_faces` still takes it as input and assigns it to person 1
(its queries filter only on `embedding`/`person_id`, never on
`ignored`). -/
theorem c2_ignored_counterexample :
    (∀ f ∈ ce2db.faces, f.id = 2 → (f.ignored = true ∧ f.personId = none)) ∧
    (clusterNewFaces simHigh (3/5) 30 ce2db).2 = some (1, 0) ∧
    (∀ f ∈ (clusterNewFaces simHigh (3/5) 30 ce2db).1.faces,
      f.id = 2 → f.personId = some 1) := by
  decide

/-- Claim C2 amended: a face with `ignored = true` is NOT excluded — both
the batch-clustering input query and the reconciliation input query select
it whenever its embedding is non-null (and, for reconciliation, its
`person_id` is NULL), the `ignored` flag playing no role. -/
theorem c2_ignored_included (db : DB) (f : Face) (hf : f ∈ db.faces)
    (_hig : f.ignored = true) (hemb : f.embedding.isSome)
    (hpid : f.personId = none) :
    f ∈ batchFaceData db ∧ f ∈ newFacesQuery db := by
  constructor
  · exact List.mem_filter.mpr ⟨hf, by simp [hemb]⟩
  · exact List.mem_filter.mpr ⟨hf, by simp [hemb, hpid]⟩

/-- Witness for the amended C2: the concrete ignored face 2 is in both
input queries. -/
theorem c2_ignored_included_witness :
    mkFace 2 (some [2]) none true ∈ batchFaceData ce2db ∧
    mkFace 2 (some [2]) none true ∈ newFacesQuery ce2db :=
  c2_ignored_included ce2db (mkFace 2 (some [2]) none true)
    (by decide) (by decide) (by decide) (by decide)

/-! ### Helper lemmas on find? and countP -/

theorem find_some_of_mem {α : Type} (p : α → Bool) :
    ∀ (l : List α) (x : α), x ∈ l → p x = true → ∃ y, l.find? p = some y := by
  intro l
  induction l with
  | nil => intro x hx; exact absurd hx (List.not_mem_nil x)
  | cons a as ih =>
    intro x hx hp
    cases ha : p a
    · rcases List.mem_cons.mp hx with rfl | hmem
      · rw [hp] at ha; exact Bool.noConfusion ha
      · rcases ih x hmem hp with ⟨y, hy⟩
        exact ⟨y, by simpa [List.find?, ha] using hy⟩
    · exact ⟨a, by simp [List.find?, ha]⟩

theorem find_first_of_filter_singleton {α : Type} (p : α → Bool) :
    ∀ (l : List α) (t : α), l.filter p = [t] → l.find? p = some t := by
  intro l
  induction l with
  | nil => intro t h; exact absurd h (by simp)
  | cons a as ih =>
    intro t h
    cases ha : p a
    · rw [List.filter_cons_of_neg (by simp [ha])] at h
      simpa [List.find?, ha] using ih t h
    · rw [List.filter_cons_of_pos ha] at h
      obtain ⟨rfl, -⟩ := List.cons.inj h
      simp [List.find?, ha]

theorem countP_of_filter {α : Type} (p q : α → Bool) :
    ∀ l : List α, (l.filter q).countP p = (l.filter (fun a => p a && q a)).length := by
  intro l
  induction l with
  | nil => rfl
  | cons a as ih =>
    cases hq : q a <;> cases hp : p a <;>
      simp [List.filter_cons, hq, hp, List.countP_cons, ih]

theorem countP_reassign (pid tid : Nat) (hne : tid ≠ pid) :
    ∀ faces : List Face,
      (faces.map (fun f =>
        if f.personId == some pid then { f with personId := some tid } else f)).countP
          (fun f => f.personId == some tid)
        = faces.countP (fun f => f.personId == some tid)
          + faces.countP (fun f => f.personId == some pid) := by
  intro faces
  induction faces with
  | nil => rfl
  | cons f fs ih =>
    simp only [List.map_cons, List.countP_cons, ih]
    by_cases hf : f.personId = some pid
    · simp [hf, Ne.symm hne]
      omega
    · by_cases h2 : f.personId = some tid
      · simp [hf, h2, hne, Ne.symm hne]
        omega
      · simp [hf, h2, hne, Ne.symm hne]

/-- Store for the C4 counterexample: two distinct persons already carry the
name Alice. -/
def ce4db : DB :=
  { faces := [],
    persons := [{ id := 5, name := "Bob", confirmed := false },
                { id := 7, name := "Alice", confirmed := true },
                { id := 8, name := "Alice", confirmed := false }],
    nextPersonId := 9 }

/-- Store for the C4 witness: the merge-safety scenario of the spec,
Person 5 (Bob, 3 faces, unconfirmed) and Person 7 (Alice, 4 faces,
confirmed). -/
def w4db : DB :=
  { faces := [mkFace 1 none (some 5) false, mkFace 2 none (some 5) false,
              mkFace 3 none (some 5) false, mkFace 4 none (some 7) false,
              mkFace 5 none (some 7) false, mkFace 6 none (some 7) false,
              mkFace 7 none (some 7) false],
    persons := [{ id := 5, name := "Bob", confirmed := false },
                { id := 7, name := "Alice", confirmed := true }],
    nextPersonId := 8 }

/-- Counterexample to Claim C4 at a concrete store: person 5 exists and a
different person (7) is named Alice, yet after `label_person(5, "Alice")`
two persons bear the name Alice (persons 7 and 8 both carried it before
the call), not exactly one. -/
theorem c4_label_merge_counterexample :
    (∃ p ∈ ce4db.persons, p.id = 5) ∧
    (∃ p ∈ ce4db.persons, p.id ≠ 5 ∧ p.name = "Alice") ∧
    (labelPerson ce4db 5 "Alice").persons.countP (fun p => p.name == "Alice") = 2 := by
  decide

/-- Claim C4 amended: when `personId` exists and exactly one other person
bears exactly `name` (case-sensitively), `label_person` reassigns every
face of `personId` to that person, deletes the `personId` row (leaving the
auto-increment counter alone), exactly one person bears `name` afterwards,
and the face count of the surviving person is the sum of both persons'
previous counts.  (The claim as frozen fails only when several other
persons already bear `name`; see the counterexample.) -/
theorem c4_label_merge (db : DB) (personId : Nat) (name : String)
    (pe : Person) (hpe : pe ∈ db.persons) (hpeid : pe.id = personId)
    (target : Person)
    (huniq : db.persons.filter (fun p => p.name == name && p.id != personId)
      = [target]) :
    (labelPerson db personId name).persons
      = db.persons.filter (fun p => p.id != personId) ∧
    (labelPerson db personId name).faces = db.faces.map (fun f =>
      if f.personId == some personId then { f with personId := some target.id }
      else f) ∧
    (labelPerson db personId name).persons.countP (fun p => p.name == name) = 1 ∧
    (labelPerson db personId name).faces.countP
        (fun f => f.personId == some target.id)
      = db.faces.countP (fun f => f.personId == some target.id)
        + db.faces.countP (fun f => f.personId == some personId) ∧
    (labelPerson db personId name).nextPersonId = db.nextPersonId := by
  obtain ⟨p₀, hp₀⟩ :=
    find_some_of_mem (fun p => p.id == personId) db.persons pe hpe
      (by simp [hpeid])
  have find2 : db.persons.find? (fun p => p.name == name && p.id != personId)
      = some target :=
    find_first_of_filter_singleton _ db.persons target huniq
  have htmem : target ∈ db.persons.filter (fun p => p.name == name && p.id != personId) := by
    rw [huniq]; exact List.mem_singleton.mpr rfl
  have htid : target.id ≠ personId := by
    have := (List.mem_filter.mp htmem).2
    simp only [Bool.and_eq_true, bne_iff_ne] at this
    exact this.2
  have hlp : labelPerson db personId name =
      { db with
        faces := db.faces.map (fun f =>
          if f.personId == some personId then { f with personId := some target.id }
          else f),
        persons := db.persons.filter (fun p => p.id != personId) } := by
    unfold labelPerson
    rw [hp₀, find2]
  refine ⟨by rw [hlp], by rw [hlp], ?_, ?_, by rw [hlp]⟩
  · rw [hlp]
    show (db.persons.filter (fun p => p.id != personId)).countP
      (fun p => p.name == name) = 1
    rw [countP_of_filter, huniq]
    rfl
  · rw [hlp]
    show (db.faces.map (fun f =>
      if f.personId == some personId then { f with personId := some target.id }
      else f)).countP (fun f => f.personId == some target.id) = _
    exact countP_reassign personId target.id htid db.faces

/-- Witness for the amended C4: the spec's merge-safety scenario.  After
`label_person(5, "Alice")` no person with id 5 remains, exactly one person
is named Alice, and person 7 owns 3 + 4 = 7 faces. -/
theorem c4_label_merge_witness :
    (labelPerson w4db 5 "Alice").persons
      = w4db.persons.filter (fun p => p.id != 5) ∧
    (labelPerson w4db 5 "Alice").faces = w4db.faces.map (fun f =>
      if f.personId == some 5 then { f with personId := some 7 } else f) ∧
    (labelPerson w4db 5 "Alice").persons.countP (fun p => p.name == "Alice") = 1 ∧
    (labelPerson w4db 5 "Alice").faces.countP (fun f => f.personId == some 7)
      = w4db.faces.countP (fun f => f.personId == some 7)
        + w4db.faces.countP (fun f => f.personId == some 5) ∧
    (labelPerson w4db 5 "Alice").nextPersonId = w4db.nextPersonId :=
  c4_label_merge w4db 5 "Alice" { id := 5, name := "Bob", confirmed := false }
    (by decide) (by decide) { id := 7, name := "Alice", confirmed := true }
    (by decide)

/-- The columns of a face row other than `person_id` (and timestamps):
detection data that clustering operations must not touch. -/
def faceDetectData (f : Face) :
    Nat × Nat × Int × Int × Int × Int × ℚ × Option (List ℚ) × Bool :=
  (f.id, f.imageId, f.x, f.y, f.width, f.height, f.confidence, f.embedding,
    f.ignored)

/-- Store for the C7 witness: the spec scenario with 3 unconfirmed persons
owning 10 faces in total and 1 confirmed person owning 5 faces. -/
def w7db : DB :=
  { faces := [mkFace 1 (some [1]) (some 1) false, mkFace 2 (some [2]) (some 1) false,
              mkFace 3 (some [3]) (some 1) false, mkFace 4 (some [4]) (some 1) false,
              mkFace 5 (some [5]) (some 2) false, mkFace 6 (some [6]) (some 2) false,
              mkFace 7 (some [7]) (some 2) false, mkFace 8 (some [8]) (some 3) false,
              mkFace 9 (some [9]) (some 3) false, mkFace 10 (some [10]) (some 3) false,
              mkFace 11 (some [11]) (some 4) false, mkFace 12 (some [12]) (some 4) false,
              mkFace 13 (some [13]) (some 4) false, mkFace 14 (some [14]) (some 4) false,
              mkFace 15 (some [15]) (some 4) false],
    persons := [{ id := 1, name := "Person 1", confirmed := false },
                { id := 2, name := "Person 2", confirmed := false },
                { id := 3, name := "Person 3", confirmed := false },
                { id := 4, name := "Dana", confirmed := true }],
    nextPersonId := 5 }

/-- Claim C7: `delete_unconfirmed_people` keeps exactly the confirmed
person rows, clears `person_id` on exactly the faces assigned to an
unconfirmed person (the conditional in the second conjunct), leaves every
other face column unchanged (third conjunct), leaves the id counter alone,
and never clears a face assigned to a confirmed person (last conjunct,
using that person ids are unique). -/
theorem c7_delete_unconfirmed (db : DB)
    (hnd : (db.persons.map (fun p => p.id)).Nodup) :
    (deleteUnconfirmedPeople db).persons
      = db.persons.filter (fun p => p.confirmed) ∧
    (deleteUnconfirmedPeople db).faces = db.faces.map (fun f =>
      if db.persons.any (fun p => !p.confirmed && f.personId == some p.id)
      then { f with personId := none } else f) ∧
    (deleteUnconfirmedPeople db).faces.map faceDetectData
      = db.faces.map faceDetectData ∧
    (deleteUnconfirmedPeople db).nextPersonId = db.nextPersonId ∧
    (∀ f ∈ db.faces, ∀ p ∈ db.persons, p.confirmed = true →
      f.personId = some p.id →
      db.persons.any (fun p' => !p'.confirmed && f.personId == some p'.id)
        = false) := by
  have hpt : ∀ f : Face,
      (match f.personId with
        | some pid =>
          if pid ∈ unconfirmedIds db then { f with personId := none } else f
        | none => f)
      = if db.persons.any (fun p => !p.confirmed && f.personId == some p.id)
        then { f with personId := none } else f := by
    intro f
    cases hfp : f.personId with
    | none => simp [hfp]
    | some pid =>
      dsimp only
      by_cases hmem : pid ∈ unconfirmedIds db
      · rw [if_pos hmem, if_pos]
        rcases List.mem_map.mp hmem with ⟨p, hpmem, hpid⟩
        rcases List.mem_filter.mp hpmem with ⟨hpdb, hpc⟩
        refine List.any_eq_true.mpr ⟨p, hpdb, ?_⟩
        simp [hpc, hpid]
      · rw [if_neg hmem, if_neg]
        intro hany
        rcases List.any_eq_true.mp hany with ⟨p, hpdb, hand⟩
        simp only [Bool.and_eq_true] at hand
        obtain ⟨hpc, hpe⟩ := hand
        apply hmem
        refine List.mem_map.mpr ⟨p, List.mem_filter.mpr ⟨hpdb, hpc⟩, ?_⟩
        exact (Option.some.inj (beq_iff_eq.mp hpe)).symm
  have hlast : ∀ f ∈ db.faces, ∀ p ∈ db.persons, p.confirmed = true →
      f.personId = some p.id →
      db.persons.any (fun p' => !p'.confirmed && f.personId == some p'.id)
        = false := by
    intro f _ p hp hpc hfp
    cases hb : db.persons.any (fun p' => !p'.confirmed && f.personId == some p'.id) with
    | false => rfl
    | true =>
      exfalso
      rcases List.any_eq_true.mp hb with ⟨p', hp', hand⟩
      simp only [Bool.and_eq_true] at hand
      obtain ⟨hp'c, hpe⟩ := hand
      rw [hfp] at hpe
      have hide : p.id = p'.id := Option.some.inj (beq_iff_eq.mp hpe)
      have hpp : p = p' := List.inj_on_of_nodup_map hnd hp hp' hide
      rw [← hpp] at hp'c
      rw [hpc] at hp'c
      simp at hp'c
  unfold deleteUnconfirmedPeople
  by_cases hemp : (unconfirmedIds db).isEmpty = true
  · have hall : ∀ p ∈ db.persons, p.confirmed = true := by
      intro p hp
      by_contra hc
      have hpc : (!p.confirmed) = true := by
        cases hcc : p.confirmed
        · rfl
        · exact absurd hcc hc
      have hin : p.id ∈ unconfirmedIds db :=
        List.mem_map.mpr ⟨p, List.mem_filter.mpr ⟨hp, hpc⟩, rfl⟩
      rw [List.isEmpty_iff.mp hemp] at hin
      exact absurd hin (List.not_mem_nil _)
    have hnone : ∀ f ∈ db.faces,
        (if db.persons.any (fun p => !p.confirmed && f.personId == some p.id)
         then { f with personId := none } else f) = f := by
      intro f _
      rw [if_neg]
      intro hany
      rcases List.any_eq_true.mp hany with ⟨p, hpdb, hand⟩
      simp only [Bool.and_eq_true] at hand
      have hpc := hand.1
      rw [hall p hpdb] at hpc
      exact Bool.noConfusion hpc
    rw [if_pos hemp]
    refine ⟨(List.filter_eq_self.mpr hall).symm, ?_, rfl, rfl, hlast⟩
    calc db.faces = db.faces.map id := (List.map_id _).symm
      _ = _ := List.map_congr_left (fun f hf => ((hnone f hf).symm : id f = _))
  · rw [if_neg hemp]
    refine ⟨rfl, ?_, ?_, rfl, hlast⟩
    · exact List.map_congr_left (fun f _ => hpt f)
    · rw [List.map_map]
      refine List.map_congr_left (fun f _ => ?_)
      show faceDetectData _ = faceDetectData f
      cases hfp : f.personId with
      | none => simp [hfp, faceDetectData]
      | some pid =>
        by_cases hmem : pid ∈ unconfirmedIds db
        · simp [hfp, hmem, faceDetectData]
        · simp [hfp, hmem, faceDetectData]

/-- Witness for C7 at the spec's scenario: 3 unconfirmed persons with 10
faces and 1 confirmed person with 5 faces. -/
theorem c7_delete_unconfirmed_witness :
    (deleteUnconfirmedPeople w7db).persons
      = w7db.persons.filter (fun p => p.confirmed) ∧
    (deleteUnconfirmedPeople w7db).faces = w7db.faces.map (fun f =>
      if w7db.persons.any (fun p => !p.confirmed && f.personId == some p.id)
      then { f with personId := none } else f) ∧
    (deleteUnconfirmedPeople w7db).faces.map faceDetectData
      = w7db.faces.map faceDetectData ∧
    (deleteUnconfirmedPeople w7db).nextPersonId = w7db.nextPersonId ∧
    (∀ f ∈ w7db.faces, ∀ p ∈ w7db.persons, p.confirmed = true →
      f.personId = some p.id →
      w7db.persons.any (fun p' => !p'.confirmed && f.personId == some p'.id)
        = false) :=
  c7_delete_unconfirmed w7db (by decide)

/-- Assigning a person to a list of member ids is a pointwise rewrite of
the face table (all updates write the same person, so order and duplicate
ids do not matter). -/
theorem assignAll_eq_map (pid : Nat) :
    ∀ (mids : List Nat) (faces : List Face),
      assignAll faces mids pid = faces.map (fun f =>
        if f.id ∈ mids then { f with personId := some pid } else f) := by
  intro mids
  induction mids with
  | nil => intro faces; simp [assignAll]
  | cons m ms ih =>
    intro faces
    show assignAll (updateFacePerson faces m (some pid)) ms pid = _
    rw [ih (updateFacePerson faces m (some pid))]
    unfold updateFacePerson
    rw [List.map_map]
    refine List.map_congr_left (fun f _ => ?_)
    by_cases hm : f.id = m
    · by_cases hms : f.id ∈ ms
      · simp [hm, hms]
      · simp [hm, hms]
    · by_cases hms : f.id ∈ ms
      · simp [hm, hms]
      · simp [hm, hms]

/-- Fold invariant of the person-creation loop of `cluster_faces`: person
ids, face assignments and the id counter never go below a lower bound that
held before the loop. -/
theorem batchFold_inv (ids : List Nat) (labels : List (Option Nat)) (n0 : Nat) :
    ∀ (cids : List Nat) (d : DB),
      (∀ p ∈ d.persons, n0 ≤ p.id) →
      (∀ f ∈ d.faces, f.personId = none ∨ ∃ pid, f.personId = some pid ∧ n0 ≤ pid) →
      n0 ≤ d.nextPersonId →
      (∀ p ∈ (cids.foldl (batchStep ids labels) d).persons, n0 ≤ p.id) ∧
      (∀ f ∈ (cids.foldl (batchStep ids labels) d).faces,
        f.personId = none ∨ ∃ pid, f.personId = some pid ∧ n0 ≤ pid) ∧
      n0 ≤ (cids.foldl (batchStep ids labels) d).nextPersonId := by
  intro cids
  induction cids with
  | nil => intro d h1 h2 h3; exact ⟨h1, h2, h3⟩
  | cons cid rest ih =>
    intro d h1 h2 h3
    refine ih (batchStep ids labels d cid) ?_ ?_ ?_
    · intro p hp
      rcases List.mem_append.mp hp with hmem | hmem
      · exact h1 p hmem
      · rw [List.mem_singleton.mp hmem]
        exact h3
    · intro f hf
      rw [show (batchStep ids labels d cid).faces
          = assignAll d.faces (memberIds ids labels cid) d.nextPersonId from rfl,
        assignAll_eq_map] at hf
      rcases List.mem_map.mp hf with ⟨f0, hf0, rfl⟩
      by_cases hin : f0.id ∈ memberIds ids labels cid
      · rw [if_pos hin]
        exact Or.inr ⟨d.nextPersonId, rfl, h3⟩
      · rw [if_neg hin]
        exact h2 f0 hf0
    · show n0 ≤ d.nextPersonId + 1
      omega

/-- Witness store for C6: one existing person (id 1) owning face 1. -/
def w6db : DB :=
  { faces := [mkFace 1 (some [1]) (some 1) false],
    persons := [{ id := 1, name := "Old", confirmed := true }],
    nextPersonId := 2 }

/-- Claim C6: when `cluster_faces` reaches the clustering branch (at least
`min_samples` embedded faces), every person row of the result is freshly
created (id at least the old auto-increment counter), so no pre-existing
person — confirmed or not — survives; and every face either ends
unassigned or assigned to one of the fresh persons, so no pre-existing
assignment survives the reset either. -/
theorem c6_batch_reset_destroys_all (sim : Sim) (eps : ℚ) (minSamples : Nat)
    (db : DB) (hgate : minSamples ≤ (batchFaceData db).length)
    (hlt : ∀ p ∈ db.persons, p.id < db.nextPersonId) :
    (∀ p' ∈ (clusterFaces sim eps minSamples db).persons,
      db.nextPersonId ≤ p'.id) ∧
    (∀ p ∈ db.persons, p ∉ (clusterFaces sim eps minSamples db).persons) ∧
    (∀ f' ∈ (clusterFaces sim eps minSamples db).faces,
      f'.personId = none ∨ ∃ pid, f'.personId = some pid ∧ db.nextPersonId ≤ pid) ∧
    (∀ f ∈ db.faces, ∀ pid, f.personId = some pid → pid < db.nextPersonId →
      ∀ f' ∈ (clusterFaces sim eps minSamples db).faces,
        f'.personId ≠ some pid) := by
  have hres : clusterFaces sim eps minSamples db
      = (uniqLabels (dbscan sim eps minSamples
          ((batchFaceData db).map (fun f => f.embedding.getD [])))).foldl
          (batchStep ((batchFaceData db).map (fun f => f.id))
            (dbscan sim eps minSamples
              ((batchFaceData db).map (fun f => f.embedding.getD []))))
          { db with
            faces := db.faces.map (fun f => { f with personId := none }),
            persons := [] } := by
    unfold clusterFaces
    rw [if_neg (Nat.not_lt.mpr hgate)]
  have hinv := batchFold_inv ((batchFaceData db).map (fun f => f.id))
    (dbscan sim eps minSamples ((batchFaceData db).map (fun f => f.embedding.getD [])))
    db.nextPersonId
    (uniqLabels (dbscan sim eps minSamples
      ((batchFaceData db).map (fun f => f.embedding.getD []))))
    { db with
      faces := db.faces.map (fun f => { f with personId := none }),
      persons := [] }
    (by intro p hp; exact absurd hp (List.not_mem_nil p))
    (by
      intro f hf
      rcases List.mem_map.mp hf with ⟨f0, -, rfl⟩
      exact Or.inl rfl)
    (le_refl _)
  rw [hres]
  refine ⟨hinv.1, ?_, hinv.2.1, ?_⟩
  · intro p hp hmem
    exact absurd (hinv.1 p hmem) (Nat.not_le.mpr (hlt p hp))
  · intro f _ pid _ hpidlt f' hf' hc
    rcases hinv.2.1 f' hf' with hn | ⟨pid', hpid', hle⟩
    · rw [hn] at hc
      exact Option.noConfusion hc
    · rw [hpid'] at hc
      have : pid' = pid := Option.some.inj hc
      omega

/-- Witness for C6: with one embedded face and `min_samples = 1` the batch
clusterer runs, deletes person 1 and reassigns the face to the fresh
person 2. -/
theorem c6_batch_reset_destroys_all_witness :
    (∀ p' ∈ (clusterFaces simW (3/5) 1 w6db).persons, w6db.nextPersonId ≤ p'.id) ∧
    (∀ p ∈ w6db.persons, p ∉ (clusterFaces simW (3/5) 1 w6db).persons) ∧
    (∀ f' ∈ (clusterFaces simW (3/5) 1 w6db).faces,
      f'.personId = none ∨ ∃ pid, f'.personId = some pid ∧ w6db.nextPersonId ≤ pid) ∧
    (∀ f ∈ w6db.faces, ∀ pid, f.personId = some pid → pid < w6db.nextPersonId →
      ∀ f' ∈ (clusterFaces simW (3/5) 1 w6db).faces,
        f'.personId ≠ some pid) :=
  c6_batch_reset_destroys_all simW (3/5) 1 w6db (by decide) (by decide)

/-! ### Lemmas about Phase 1, Phase 2 and the convergence loop -/

theorem processFace_cases (sim : Sim) (thr : ℚ) (acc : P1Acc)
    (fc : Nat × List ℚ) :
    processFace sim thr acc fc = { acc with unmatched := acc.unmatched ++ [fc] } ∨
    ((processFace sim thr acc fc).count = acc.count + 1 ∧
      (processFace sim thr acc fc).unmatched = acc.unmatched) := by
  unfold processFace
  cases (findBest sim thr fc.2 acc.cents (none, 0)).1 with
  | none => exact Or.inl rfl
  | some pid =>
    dsimp only
    by_cases hpid : pid ≠ 0
    · rw [if_pos hpid]
      exact Or.inr ⟨rfl, rfl⟩
    · rw [if_neg hpid]
      exact Or.inl rfl

theorem p1_count_mono (sim : Sim) (thr : ℚ) :
    ∀ (ps : List (Nat × List ℚ)) (acc : P1Acc),
      acc.count ≤ (ps.foldl (processFace sim thr) acc).count := by
  intro ps
  induction ps with
  | nil => intro acc; exact le_refl _
  | cons p ps ih =>
    intro acc
    have hstep : acc.count ≤ (processFace sim thr acc p).count := by
      rcases processFace_cases sim thr acc p with heq | ⟨hc, -⟩
      · rw [heq]
      · omega
    calc acc.count ≤ (processFace sim thr acc p).count := hstep
      _ ≤ _ := ih (processFace sim thr acc p)

/-- A pass of Phase 1 that assigned nothing changed nothing: it only moved
every processed face to the unmatched list. -/
theorem p1_frozen (sim : Sim) (thr : ℚ) :
    ∀ (ps : List (Nat × List ℚ)) (acc : P1Acc),
      (ps.foldl (processFace sim thr) acc).count = acc.count →
      ps.foldl (processFace sim thr) acc
        = { acc with unmatched := acc.unmatched ++ ps } := by
  intro ps
  induction ps with
  | nil => intro acc _; simp
  | cons p ps ih =>
    intro acc h
    rcases processFace_cases sim thr acc p with heq | ⟨hc, -⟩
    · rw [List.foldl_cons, heq] at h ⊢
      rw [ih _ h]
      simp
    · exfalso
      have := p1_count_mono sim thr ps (processFace sim thr acc p)
      rw [List.foldl_cons] at h
      omega

theorem mineFold_count (numCents : Nat) (ids : List Nat)
    (labels : List (Option Nat)) :
    ∀ (cids : List Nat) (d : DB) (c : Nat),
      (cids.foldl (mineStep numCents ids labels) (d, c)).2 = c + cids.length := by
  intro cids
  induction cids with
  | nil => intro d c; rfl
  | cons cid rest ih =>
    intro d c
    rw [List.foldl_cons]
    have h : (rest.foldl (mineStep numCents ids labels)
        (mineStep numCents ids labels (d, c) cid)).2 = (c + 1) + rest.length :=
      ih (mineStep numCents ids labels (d, c) cid).1 (c + 1)
    rw [h, List.length_cons]
    omega

theorem phase2_zero (sim : Sim) (minNew numCents : Nat)
    (unm : List (Nat × List ℚ)) (db : DB)
    (h : (phase2 sim minNew numCents unm db).2 = 0) :
    (phase2 sim minNew numCents unm db).1 = db := by
  unfold phase2 at h ⊢
  split at h
  · rw [if_pos (by assumption)]
    rw [mineFold_count] at h
    have huniq : uniqLabels (dbscan sim (2/5 : ℚ) minNew
        (unm.map (fun u => u.2))) = [] := List.length_eq_zero.mp (by omega)
    rw [huniq]
    rfl
  · rw [if_neg (by assumption)]

/-- The main branch of `cluster_new_faces`, spelled out. -/
theorem clusterNewFaces_run (sim : Sim) (thr : ℚ) (minNew : Nat) (db : DB)
    (h1 : ¬newFacesQuery db = []) (h2 : ¬existingData db = []) :
    clusterNewFaces sim thr minNew db
      = ((phase2 sim minNew (buildCentroids (existingData db)).length
            (phase1 sim thr (buildCentroids (existingData db))
              (facePairs (newFacesQuery db)) db.faces).unmatched
            { db with
              faces := (phase1 sim thr (buildCentroids (existingData db))
                (facePairs (newFacesQuery db)) db.faces).faces }).1,
          some ((phase1 sim thr (buildCentroids (existingData db))
              (facePairs (newFacesQuery db)) db.faces).count,
            (phase2 sim minNew (buildCentroids (existingData db)).length
              (phase1 sim thr (buildCentroids (existingData db))
                (facePairs (newFacesQuery db)) db.faces).unmatched
              { db with
                faces := (phase1 sim thr (buildCentroids (existingData db))
                  (facePairs (newFacesQuery db)) db.faces).faces }).2)) := by
  unfold clusterNewFaces
  rw [if_neg (by simpa [List.isEmpty_iff] using h1),
    if_neg (by simpa [List.isEmpty_iff] using h2)]

/-- A pass that reports `(0, 0)` left the store exactly as it was. -/
theorem clusterNewFaces_zero_fixed (sim : Sim) (thr : ℚ) (minNew : Nat)
    (db db2 : DB)
    (h : clusterNewFaces sim thr minNew db = (db2, some (0, 0))) : db2 = db := by
  by_cases h1 : newFacesQuery db = []
  · rw [show clusterNewFaces sim thr minNew db = (db, none) by
      unfold clusterNewFaces
      rw [if_pos (by simpa [List.isEmpty_iff] using h1)]] at h
    exact absurd (congrArg Prod.snd h) (by simp)
  by_cases h2 : existingData db = []
  · rw [show clusterNewFaces sim thr minNew db = (db, none) by
      unfold clusterNewFaces
      rw [if_neg (by simpa [List.isEmpty_iff] using h1),
        if_pos (by simpa [List.isEmpty_iff] using h2)]] at h
    exact absurd (congrArg Prod.snd h) (by simp)
  rw [clusterNewFaces_run sim thr minNew db h1 h2] at h
  have hdb2 := congrArg Prod.fst h
  have hpair := congrArg Prod.snd h
  simp only [Prod.mk.injEq] at hdb2 hpair
  obtain ⟨hcount, hp2⟩ : (phase1 sim thr (buildCentroids (existingData db))
      (facePairs (newFacesQuery db)) db.faces).count = 0 ∧
      (phase2 sim minNew (buildCentroids (existingData db)).length
        (phase1 sim thr (buildCentroids (existingData db))
          (facePairs (newFacesQuery db)) db.faces).unmatched
        { db with
          faces := (phase1 sim thr (buildCentroids (existingData db))
            (facePairs (newFacesQuery db)) db.faces).faces }).2 = 0 := by
    have := Option.some.inj hpair
    exact ⟨congrArg Prod.fst this, congrArg Prod.snd this⟩
  have hfro := p1_frozen sim thr (facePairs (newFacesQuery db))
    ⟨buildCentroids (existingData db), 0, [], db.faces⟩ hcount
  have hfaces : (phase1 sim thr (buildCentroids (existingData db))
      (facePairs (newFacesQuery db)) db.faces).faces = db.faces := by
    unfold phase1
    rw [hfro]
  have hdb1 : ({ db with
      faces := (phase1 sim thr (buildCentroids (existingData db))
        (facePairs (newFacesQuery db)) db.faces).faces } : DB) = db := by
    rw [hfaces]
  rw [← hdb2]
  rw [hdb1] at hp2 ⊢
  exact phase2_zero sim minNew _ _ db hp2

/-- Full behavioural specification of the loop body: the iteration count
is bounded and offset-consistent, every pass strictly before the last made
progress, a stop before the cap means the last pass was the `(0, 0)` fixed
point, and the returned store is the state after `it` passes. -/
theorem loopAux_spec (sim : Sim) (thr : ℚ) (minNew : Nat) (db : DB) :
    ∀ (rem k0 ta tn : Nat) (d db' : DB) (ta' tn' it : Nat),
      stateAt sim thr minNew db k0 = some d →
      loopAux sim thr minNew rem k0 ta tn d = some (db', ta', tn', it) →
      (k0 ≤ it ∧ (0 < rem → k0 < it)) ∧
      it ≤ k0 + rem ∧
      (∀ k, k0 ≤ k → k + 1 < it →
        ∃ pr, passProgress sim thr minNew db k = some pr ∧ pr ≠ (0, 0)) ∧
      (it < k0 + rem → passProgress sim thr minNew db (it - 1) = some (0, 0)) ∧
      stateAt sim thr minNew db it = some db' := by
  intro rem
  induction rem with
  | zero =>
    intro k0 ta tn d db' ta' tn' it hstate hrun
    unfold loopAux at hrun
    obtain ⟨hd, -, -, hit⟩ :
        d = db' ∧ ta = ta' ∧ tn = tn' ∧ k0 = it := by
      have := Option.some.inj hrun
      exact ⟨congrArg (fun x => x.1) this, congrArg (fun x => x.2.1) this,
        congrArg (fun x => x.2.2.1) this, congrArg (fun x => x.2.2.2) this⟩
    subst hd hit
    exact ⟨⟨le_refl _, by omega⟩, by omega, by omega, by omega, hstate⟩
  | succ rem ih =>
    intro k0 ta tn d db' ta' tn' it hstate hrun
    unfold loopAux at hrun
    rcases hc : clusterNewFaces sim thr minNew d with ⟨d2, o⟩
    rw [hc] at hrun
    cases o with
    | none => exact absurd hrun (by simp)
    | some pr =>
      rcases pr with ⟨a, n⟩
      dsimp only at hrun
      have hstate2 : stateAt sim thr minNew db (k0 + 1) = some d2 := by
        show (stateAt sim thr minNew db k0).bind _ = some d2
        rw [hstate]
        simp [hc]
      have hpass : passProgress sim thr minNew db k0 = some (a, n) := by
        unfold passProgress
        rw [hstate]
        simp [hc]
      by_cases hz : a = 0 ∧ n = 0
      · rw [if_pos hz] at hrun
        obtain ⟨hd, -, -, hit⟩ :
            d2 = db' ∧ ta + a = ta' ∧ tn + n = tn' ∧ k0 + 1 = it := by
          have := Option.some.inj hrun
          exact ⟨congrArg (fun x => x.1) this, congrArg (fun x => x.2.1) this,
            congrArg (fun x => x.2.2.1) this, congrArg (fun x => x.2.2.2) this⟩
        subst hd hit
        refine ⟨⟨by omega, by omega⟩, by omega,
          fun k hk0 hk1 => absurd hk1 (by omega), ?_, by simpa using hstate2⟩
        intro _
        rw [Nat.add_sub_cancel]
        rw [hz.1, hz.2] at hpass
        exact hpass
      · rw [if_neg hz] at hrun
        obtain ⟨⟨ha1, -⟩, hb, hcx, hdx, hex⟩ :=
          ih (k0 + 1) (ta + a) (tn + n) d2 db' ta' tn' it hstate2 hrun
        refine ⟨⟨by omega, fun _ => by omega⟩, by omega, ?_, ?_, hex⟩
        · intro k hk0 hk1
          rcases Nat.eq_or_lt_of_le hk0 with rfl | hlt
          · refine ⟨(a, n), hpass, ?_⟩
            intro hcon
            exact hz ⟨congrArg Prod.fst hcon, congrArg Prod.snd hcon⟩
          · exact hcx k (by omega) hk1
        · intro hlt
          exact hdx (by omega)

/-- Store on which the loop converges in one pass: the single unassigned
face is only `1/2`-similar to the lone centroid. -/
def w1db : DB :=
  { faces := [mkFace 1 (some [1]) (some 1) false, mkFace 2 (some [2]) none false],
    persons := [{ id := 1, name := "Person 1", confirmed := false }],
    nextPersonId := 2 }

/-- Claim C9: a completed run of `cluster_new_faces_loop` executes at most
`max_iterations` passes, every pass strictly before the final one made
nonzero progress (the loop never runs past its first zero-progress pass),
and whenever the loop stopped before exhausting the cap, its final pass is
the `(0, 0)` fixed point. -/
theorem c9_loop_stops_at_first_fixed_point (sim : Sim) (thr : ℚ)
    (minNew maxIter : Nat) (db db' : DB) (ta tn it : Nat)
    (h : clusterNewFacesLoop sim thr minNew maxIter db = some (db', ta, tn, it)) :
    it ≤ maxIter ∧
    (∀ k, k + 1 < it →
      ∃ pr, passProgress sim thr minNew db k = some pr ∧ pr ≠ (0, 0)) ∧
    (it < maxIter → passProgress sim thr minNew db (it - 1) = some (0, 0)) := by
  have hspec := loopAux_spec sim thr minNew db maxIter 0 0 0 db db' ta tn it rfl h
  exact ⟨by omega, fun k hk => hspec.2.2.1 k (by omega) hk,
    fun hlt => hspec.2.2.2.1 (by omega)⟩

/-- Witness for C9: on `w1db` the loop stops after its first pass, which
reported `(0, 0)`. -/
theorem c9_loop_stops_witness :
    (1 : Nat) ≤ 2 ∧
    (∀ k, k + 1 < 1 →
      ∃ pr, passProgress simW (3/5) 30 w1db k = some pr ∧ pr ≠ (0, 0)) ∧
    ((1 : Nat) < 2 → passProgress simW (3/5) 30 w1db 0 = some (0, 0)) :=
  c9_loop_stops_at_first_fixed_point simW (3/5) 30 2 w1db w1db 0 0 1 (by decide)

/-- Oracle for the C1 counterexample: the unassigned embedding `[5]` is
`9/10`-similar to the centroid `[1]` of person 1 (values consistent with
real cosines). -/
def simCE1 : Sim :=
  fun a b => if a = b then 1 else if a = [5] ∧ b = [1] then 9/10 else 0

/-- Store for the C1 counterexample. -/
def ce1db : DB :=
  { faces := [mkFace 1 (some [1]) (some 1) false, mkFace 2 (some [5]) none false],
    persons := [{ id := 1, name := "Person 1", confirmed := false }],
    nextPersonId := 2 }

/-- Counterexample to Claim C1 at a concrete store with
`max_iterations = 1`: the first run completes normally (assigning face 2),
no face is inserted afterwards, yet the second run does not complete
normally and report zero progress — it aborts (`cluster_new_faces` returns
`None`, and the loop's tuple unpacking raises), because no unassigned face
is left. -/
theorem c1_second_run_counterexample :
    clusterNewFacesLoop simCE1 (3/5) 30 1 ce1db
      = some ({ ce1db with
          faces := [mkFace 1 (some [1]) (some 1) false,
                    mkFace 2 (some [5]) (some 1) false] }, 1, 0, 1) ∧
    clusterNewFacesLoop simCE1 (3/5) 30 1
      { ce1db with
        faces := [mkFace 1 (some [1]) (some 1) false,
                  mkFace 2 (some [5]) (some 1) false] } = none := by
  decide

/-- Claim C1 amended: when the first completed run stopped strictly before
the `max_iterations` cap — i.e. it stopped because it reached the
convergence fixed point, not because the cap cut it off — a second run on
the resulting store with the same parameters completes normally and
reports zero assignments, zero new persons, in one pass, leaving the store
unchanged.  (Runs that stop at the cap admit counterexamples: the second
run can assign further faces or abort, see the counterexample.) -/
theorem c1_second_run_zero_after_convergence (sim : Sim) (thr : ℚ)
    (minNew maxIter : Nat) (db db' : DB) (ta tn it : Nat)
    (h : clusterNewFacesLoop sim thr minNew maxIter db = some (db', ta, tn, it))
    (hconv : it < maxIter) :
    clusterNewFacesLoop sim thr minNew maxIter db' = some (db', 0, 0, 1) := by
  have hspec := loopAux_spec sim thr minNew db maxIter 0 0 0 db db' ta tn it rfl h
  have hit1 : 1 ≤ it := hspec.1.2 (by omega)
  have hlast := hspec.2.2.2.1 (by omega)
  have hstate' := hspec.2.2.2.2
  unfold passProgress at hlast
  rcases hsd : stateAt sim thr minNew db (it - 1) with - | d
  · rw [hsd] at hlast
    exact absurd hlast (by simp)
  rw [hsd] at hlast
  have hlast2 : (clusterNewFaces sim thr minNew d).2 = some (0, 0) := hlast
  rcases hcd : clusterNewFaces sim thr minNew d with ⟨d2, o⟩
  rw [hcd] at hlast2
  have ho : o = some (0, 0) := hlast2
  rw [ho] at hcd
  have hd2 : d2 = d := clusterNewFaces_zero_fixed sim thr minNew d d2 hcd
  have hstate'' : stateAt sim thr minNew db it = some d2 := by
    obtain ⟨j, rfl⟩ : ∃ j, it = j + 1 := ⟨it - 1, by omega⟩
    show (stateAt sim thr minNew db j).bind _ = some d2
    have : j = j + 1 - 1 := by omega
    rw [← this] at hsd
    rw [hsd]
    simp [hcd]
  have hdb' : db' = d := by
    rw [hstate''] at hstate'
    have := Option.some.inj hstate'
    rw [← this, hd2]
  obtain ⟨m, rfl⟩ : ∃ m, maxIter = m + 1 := ⟨maxIter - 1, by omega⟩
  show loopAux sim thr minNew (m + 1) 0 0 0 db' = some (db', 0, 0, 1)
  unfold loopAux
  rw [hdb', hcd]
  dsimp only
  rw [if_pos ⟨rfl, rfl⟩, hd2]

/-- Witness for the amended C1: the run on `w1db` converges with one pass
(`1 < 2` iterations), and the second run reports `(0, 0)` in one pass. -/
theorem c1_second_run_zero_witness :
    clusterNewFacesLoop simW (3/5) 30 2 w1db = some (w1db, 0, 0, 1) :=
  c1_second_run_zero_after_convergence simW (3/5) 30 2 w1db w1db 0 0 1
    (by decide) (by decide)

/-! ### Lemmas about the DBSCAN label array -/

theorem lget_oob : ∀ (L : List (Option Nat)) (i : Nat),
    L.length ≤ i → lget L i = some 0 := by
  intro L
  induction L with
  | nil => intro i _; rfl
  | cons x xs ih =>
    intro i hi
    cases i with
    | zero => simp at hi
    | succ j => exact ih j (by simpa using hi)

theorem lset_length : ∀ (L : List (Option Nat)) (i : Nat) (v : Option Nat),
    (lset L i v).length = L.length := by
  intro L
  induction L with
  | nil => intro i v; rfl
  | cons x xs ih =>
    intro i v
    cases i with
    | zero => rfl
    | succ j => simp [lset, ih]

theorem lget_lset_self : ∀ (L : List (Option Nat)) (i : Nat) (v : Option Nat),
    i < L.length → lget (lset L i v) i = v := by
  intro L
  induction L with
  | nil => intro i v hi; simp at hi
  | cons x xs ih =>
    intro i v hi
    cases i with
    | zero => rfl
    | succ j => exact ih j v (by simpa using hi)

theorem lget_lset_other : ∀ (L : List (Option Nat)) (i j : Nat) (v : Option Nat),
    j ≠ i → lget (lset L i v) j = lget L j := by
  intro L
  induction L with
  | nil => intro i j v _; rfl
  | cons x xs ih =>
    intro i j v hne
    cases i with
    | zero =>
      cases j with
      | zero => exact absurd rfl hne
      | succ j' => rfl
    | succ i' =>
      cases j with
      | zero => rfl
      | succ j' => exact ih i' j' v (fun h => hne (by rw [h]))

theorem countP_lset_none : ∀ (L : List (Option Nat)) (i lab : Nat),
    i < L.length → lget L i = none →
    (lset L i (some lab)).countP (fun x => x.isNone) + 1
      = L.countP (fun x => x.isNone) := by
  intro L
  induction L with
  | nil => intro i lab hi; simp at hi
  | cons x xs ih =>
    intro i lab hi hnone
    cases i with
    | zero =>
      have hx : x = none := hnone
      simp [lset, List.countP_cons, hx]
    | succ j =>
      have := ih j lab (by simpa using hi) hnone
      simp only [lset, List.countP_cons]
      omega

theorem lget_replicate : ∀ (n j : Nat) (v : Option Nat),
    j < n → lget (List.replicate n v) j = v := by
  intro n
  induction n with
  | zero => intro j v hj; simp at hj
  | succ m ih =>
    intro j v hj
    cases j with
    | zero => rfl
    | succ j' => exact ih j' v (by omega)

theorem countP_isNone_replicate (n : Nat) :
    (List.replicate n (none : Option Nat)).countP (fun x => x.isNone) = n := by
  induction n with
  | zero => rfl
  | succ m ih => simp [List.replicate_succ, List.countP_cons, ih]

theorem eq_replicate_of_lget : ∀ (L : List (Option Nat)) (n : Nat)
    (v : Option Nat), L.length = n → (∀ j < n, lget L j = v) →
    L = List.replicate n v := by
  intro L
  induction L with
  | nil =>
    intro n v hlen _
    rw [← hlen]
    rfl
  | cons x xs ih =>
    intro n v hlen hall
    cases n with
    | zero => simp at hlen
    | succ m =>
      rw [List.replicate_succ]
      have hx : x = v := hall 0 (by omega)
      have hxs : xs = List.replicate m v := by
        refine ih m v (by simpa using hlen) ?_
        intro j hj
        exact hall (j + 1) (by omega)
      rw [hx, hxs]

theorem lget_mem : ∀ (L : List (Option Nat)) (j : Nat),
    j < L.length → lget L j ∈ L := by
  intro L
  induction L with
  | nil => intro j hj; simp at hj
  | cons x xs ih =>
    intro j hj
    cases j with
    | zero => exact List.mem_cons_self x xs
    | succ j' => exact List.mem_cons_of_mem x (ih j' (by simpa using hj))

theorem dfs_length (nbrs : Nat → List Nat) (core : Nat → Bool) (lab : Nat) :
    ∀ (fuel : Nat) (stack : List Nat) (L : List (Option Nat)),
      (dfs nbrs core lab fuel stack L).length = L.length := by
  intro fuel
  induction fuel with
  | zero => intro stack L; rfl
  | succ f ih =>
    intro stack L
    cases stack with
    | nil => rfl
    | cons i st =>
      simp only [dfs]
      by_cases hi : lget L i = none
      · rw [if_pos hi, ih, lset_length]
      · rw [if_neg hi, ih]

/-- Depth-first expansion saturates: when every point is core with the
full index range as neighbourhood (the mutually-similar situation), the
expansion labels every point with the current cluster, given enough fuel
and a stack covering the unlabelled points. -/
theorem dfs_all_label (nbrs : Nat → List Nat) (core : Nat → Bool)
    (lab n : Nat) (hnbrs : ∀ i, i < n → nbrs i = List.range n)
    (hcore : ∀ i, i < n → core i = true) :
    ∀ (fuel : Nat) (stack : List Nat) (L : List (Option Nat)),
      (∀ j ∈ stack, j < n) →
      L.length = n →
      (∀ j, j < n → lget L j = none → j ∈ stack) →
      stack.length + n * (L.countP (fun x => x.isNone)) ≤ fuel →
      (∀ j, j < n → lget L j = none ∨ lget L j = some lab) →
      ∀ j, j < n → lget (dfs nbrs core lab fuel stack L) j = some lab := by
  intro fuel
  induction fuel with
  | zero =>
    intro stack L hstack hlen hcover hfuel hlab j hj
    have hc0 : L.countP (fun x => x.isNone) = 0 := by
      by_contra hc
      have h1 : 1 ≤ L.countP (fun x => x.isNone) := by omega
      have := Nat.mul_le_mul_left n h1
      omega
    have hnot : ¬lget L j = none := by
      intro hnone
      have hmem : (none : Option Nat) ∈ L := by
        rw [← hnone]
        exact lget_mem L j (by omega)
      have : 0 < L.countP (fun x => x.isNone) := by
        rw [List.countP_pos_iff]
        exact ⟨none, hmem, rfl⟩
      omega
    rcases hlab j hj with hnone | hsome
    · exact absurd hnone hnot
    · exact hsome
  | succ fuel ih =>
    intro stack L hstack hlen hcover hfuel hlab j hj
    cases stack with
    | nil =>
      have hnot : ¬lget L j = none := fun hnone =>
        absurd (hcover j hj hnone) (List.not_mem_nil j)
      rcases hlab j hj with hnone | hsome
      · exact absurd hnone hnot
      · exact hsome
    | cons i st =>
      have hi_n : i < n := hstack i (List.mem_cons_self i st)
      simp only [dfs]
      by_cases hi : lget L i = none
      · rw [if_pos hi]
        rw [hcore i hi_n, if_pos rfl, hnbrs i hi_n]
        have hcnt := countP_lset_none L i lab (by omega) hi
        refine ih (List.range n ++ st) (lset L i (some lab)) ?_ ?_ ?_ ?_ ?_ j hj
        · intro k hk
          rcases List.mem_append.mp hk with hk1 | hk2
          · exact List.mem_range.mp hk1
          · exact hstack k (List.mem_cons_of_mem i hk2)
        · rw [lset_length]; exact hlen
        · intro k hkn _
          exact List.mem_append.mpr (Or.inl (List.mem_range.mpr hkn))
        · have hstlen : (i :: st).length = st.length + 1 := rfl
          have hlen2 : (List.range n ++ st).length = n + st.length := by
            simp
          have hmul : n * L.countP (fun x => x.isNone)
              = n * (lset L i (some lab)).countP (fun x => x.isNone) + n := by
            rw [← hcnt]
            ring
          omega
        · intro k hkn
          by_cases hki : k = i
          · subst hki
            exact Or.inr (lget_lset_self L k (some lab) (by omega))
          · rw [lget_lset_other L i k (some lab) hki]
            exact hlab k hkn
      · rw [if_neg hi]
        refine ih st L ?_ hlen ?_ ?_ hlab j hj
        · intro k hk
          exact hstack k (List.mem_cons_of_mem i hk)
        · intro k hkn hknone
          rcases List.mem_cons.mp (hcover k hkn hknone) with rfl | hmem
          · exact absurd hknone hi
          · exact hmem
        · have : (i :: st).length = st.length + 1 := rfl
          omega

theorem dbscanOuter_skip (nbrs : Nat → List Nat) (core : Nat → Bool)
    (fuel : Nat) :
    ∀ (idxs : List Nat) (nextLab : Nat) (L : List (Option Nat)),
      (∀ i ∈ idxs, ¬lget L i = none) →
      dbscanOuter nbrs core fuel idxs nextLab L = L := by
  intro idxs
  induction idxs with
  | nil => intro nextLab L _; rfl
  | cons i rest ih =>
    intro nextLab L hall
    simp only [dbscanOuter]
    rw [if_neg]
    · exact ih nextLab L (fun k hk => hall k (List.mem_cons_of_mem i hk))
    · rintro ⟨h1, -⟩
      exact hall i (List.mem_cons_self i rest) h1

/-- On a point set in which every pair lies within `eps` of each other
(one dense group), DBSCAN produces a single cluster containing every
point. -/
theorem dbscan_single_cluster (sim : Sim) (eps : ℚ) (minPts : Nat)
    (pts : List (List ℚ)) (hn : 1 ≤ pts.length)
    (hmin : minPts ≤ pts.length)
    (hsim : ∀ i, i < pts.length → ∀ j, j < pts.length →
      1 - sim (vget pts i) (vget pts j) ≤ eps) :
    dbscan sim eps minPts pts = List.replicate pts.length (some 0) := by
  have hnbrs : ∀ i, i < pts.length →
      nbrList sim eps pts i = List.range pts.length := by
    intro i hi
    unfold nbrList
    apply List.filter_eq_self.mpr
    intro j hj
    have hj' := List.mem_range.mp hj
    simpa using hsim i hi j hj'
  have hcore : ∀ i, i < pts.length →
      isCorePt sim eps minPts pts i = true := by
    intro i hi
    unfold isCorePt
    rw [hnbrs i hi, List.length_range]
    simpa using hmin
  obtain ⟨m, hm⟩ : ∃ m, pts.length = m + 1 := ⟨pts.length - 1, by omega⟩
  rw [hm] at hnbrs hcore hsim
  simp only [dbscan]
  rw [hm, List.range_succ_eq_map]
  simp only [dbscanOuter]
  rw [if_pos ⟨lget_replicate (m + 1) 0 none (by omega), hcore 0 (by omega)⟩]
  have hstep : dfs (nbrList sim eps pts) (isCorePt sim eps minPts pts) 0
      ((m + 1) * (m + 1) + (m + 1) + 1) [0]
      (List.replicate (m + 1) none)
      = dfs (nbrList sim eps pts) (isCorePt sim eps minPts pts) 0
        ((m + 1) * (m + 1) + (m + 1)) (List.range (m + 1) ++ [])
        (lset (List.replicate (m + 1) none) 0 (some 0)) := by
    simp only [dfs]
    rw [if_pos (lget_replicate (m + 1) 0 none (by omega)),
      hcore 0 (by omega), if_pos rfl, hnbrs 0 (by omega)]
  rw [hstep]
  have hcnt := countP_lset_none (List.replicate (m + 1) none) 0 0
    (by simp) (lget_replicate (m + 1) 0 none (by omega))
  rw [countP_isNone_replicate] at hcnt
  have hall := dfs_all_label (nbrList sim eps pts) (isCorePt sim eps minPts pts)
    0 (m + 1) hnbrs hcore
    ((m + 1) * (m + 1) + (m + 1)) (List.range (m + 1) ++ [])
    (lset (List.replicate (m + 1) none) 0 (some 0))
    (by
      intro j hj
      rcases List.mem_append.mp hj with hj1 | hj2
      · exact List.mem_range.mp hj1
      · exact absurd hj2 (List.not_mem_nil j))
    (by rw [lset_length, List.length_replicate])
    (by
      intro j hj _
      exact List.mem_append.mpr (Or.inl (List.mem_range.mpr hj)))
    (by
      have h1 : (List.range (m + 1) ++ ([] : List Nat)).length = m + 1 := by
        simp
      have h2 : (lset (List.replicate (m + 1) none) 0
          (some 0)).countP (fun x => x.isNone) = m := by omega
      rw [h1, h2]
      have hx : (m + 1) * (m + 1) = (m + 1) * m + (m + 1) := by ring
      omega)
    (by
      intro j hj
      by_cases hj0 : j = 0
      · subst hj0
        exact Or.inr (lget_lset_self (List.replicate (m + 1) none) 0
          (some 0) (by simp))
      · rw [lget_lset_other (List.replicate (m + 1) none) 0 j (some 0) hj0]
        exact Or.inl (lget_replicate (m + 1) j none hj))
  have hlen : (dfs (nbrList sim eps pts) (isCorePt sim eps minPts pts) 0
      ((m + 1) * (m + 1) + (m + 1)) (List.range (m + 1) ++ [])
      (lset (List.replicate (m + 1) none) 0 (some 0))).length = m + 1 := by
    rw [dfs_length, lset_length, List.length_replicate]
  rw [dbscanOuter_skip]
  · exact eq_replicate_of_lget _ (m + 1) (some 0) hlen hall
  · intro i hi
    rcases List.mem_map.mp hi with ⟨j, hj, rfl⟩
    have hjm := List.mem_range.mp hj
    rw [hall (j + 1) (by omega)]
    simp

theorem uniqLabels_replicate (n : Nat) (hn : 1 ≤ n) :
    uniqLabels (List.replicate n (some 0)) = [0] := by
  unfold uniqLabels
  rw [List.length_replicate]
  obtain ⟨m, rfl⟩ : ∃ m, n = m + 1 := ⟨n - 1, by omega⟩
  rw [List.range_succ_eq_map]
  rw [List.filter_cons]
  have hpos : (List.replicate (m + 1) (some 0)).contains (some 0) = true :=
    List.elem_eq_true_of_mem (List.mem_replicate.mpr ⟨by omega, rfl⟩)
  simp only [hpos, if_true]
  have hnil : (List.map Nat.succ (List.range m)).filter
      (fun l => (List.replicate (m + 1) (some 0)).contains (some l)) = [] := by
    rw [List.filter_eq_nil_iff]
    intro x hx hcon
    rcases List.mem_map.mp hx with ⟨j, -, rfl⟩
    have hmem := List.mem_of_elem_eq_true hcon
    have := List.eq_of_mem_replicate hmem
    exact Nat.noConfusion (Option.some.inj this)
  rw [hnil]

theorem memberIds_replicate :
    ∀ ids : List Nat,
      memberIds ids (List.replicate ids.length (some 0)) 0 = ids := by
  intro ids
  induction ids with
  | nil => rfl
  | cons a as ih =>
    show memberIds (a :: as) (some 0 :: List.replicate as.length (some 0)) 0
      = a :: as
    unfold memberIds at ih ⊢
    simp only [List.zip_cons_cons, List.filter_cons]
    rw [if_pos (by simp)]
    rw [List.map_cons]
    rw [ih]

theorem vget_mem : ∀ (l : List (List ℚ)) (i : Nat),
    i < l.length → vget l i ∈ l := by
  intro l
  induction l with
  | nil => intro i hi; simp at hi
  | cons x xs ih =>
    intro i hi
    cases i with
    | zero => exact List.mem_cons_self x xs
    | succ j => exact List.mem_cons_of_mem x (ih j (by simpa using hi))

theorem processFace_cases_full (sim : Sim) (thr : ℚ) (acc : P1Acc)
    (fc : Nat × List ℚ) :
    processFace sim thr acc fc = { acc with unmatched := acc.unmatched ++ [fc] } ∨
    ∃ pid, processFace sim thr acc fc =
      { cents := acc.cents.map
          (fun c => if c.1 == pid then (c.1, halfSum c.2 fc.2) else c),
        count := acc.count + 1,
        unmatched := acc.unmatched,
        faces := updateFacePerson acc.faces fc.1 (some pid) } := by
  unfold processFace
  cases (findBest sim thr fc.2 acc.cents (none, 0)).1 with
  | none => exact Or.inl rfl
  | some pid =>
    dsimp only
    by_cases hpid : pid ≠ 0
    · rw [if_pos hpid]
      exact Or.inr ⟨pid, rfl⟩
    · rw [if_neg hpid]
      exact Or.inl rfl

/-- Phase-1 invariant: a face whose id is on the unmatched list still has
`person_id = NULL` in the face table carried by the accumulator.  Needs
that the pending ids are distinct from each other, from the unmatched ids,
and unassigned in the table. -/
theorem p1_unmatched_clean (sim : Sim) (thr : ℚ) :
    ∀ (ps : List (Nat × List ℚ)) (acc : P1Acc),
      (∀ fc ∈ acc.unmatched, ∀ f ∈ acc.faces, f.id = fc.1 → f.personId = none) →
      (∀ p ∈ ps, ∀ f ∈ acc.faces, f.id = p.1 → f.personId = none) →
      (∀ p ∈ ps, ∀ u ∈ acc.unmatched, p.1 ≠ u.1) →
      (ps.map (fun u => u.1)).Nodup →
      ∀ fc ∈ (ps.foldl (processFace sim thr) acc).unmatched,
        ∀ f ∈ (ps.foldl (processFace sim thr) acc).faces,
          f.id = fc.1 → f.personId = none := by
  intro ps
  induction ps with
  | nil => intro acc h1 _ _ _; exact h1
  | cons p ps ih =>
    intro acc h1 h2 h3 h4
    have h4' : (ps.map (fun u => u.1)).Nodup :=
      (List.nodup_cons.mp (by simpa using h4)).2
    have hphead : p.1 ∉ ps.map (fun u => u.1) :=
      (List.nodup_cons.mp (by simpa using h4)).1
    rw [List.foldl_cons]
    rcases processFace_cases_full sim thr acc p with heq | ⟨pid, heq⟩
    · rw [heq]
      apply ih
      · intro fc hfc f hf hid
        rcases List.mem_append.mp hfc with hm | hm
        · exact h1 fc hm f hf hid
        · rw [List.mem_singleton.mp hm] at hid
          exact h2 p (List.mem_cons_self p ps) f hf hid
      · intro q hq f hf hid
        exact h2 q (List.mem_cons_of_mem p hq) f hf hid
      · intro q hq u hu
        rcases List.mem_append.mp hu with hm | hm
        · exact h3 q (List.mem_cons_of_mem p hq) u hm
        · rw [List.mem_singleton.mp hm]
          intro hc
          exact hphead (hc ▸ List.mem_map.mpr ⟨q, hq, rfl⟩)
      · exact h4'
    · rw [heq]
      apply ih
      · intro fc hfc f hf hid
        unfold updateFacePerson at hf
        rcases List.mem_map.mp hf with ⟨f0, hf0, rfl⟩
        by_cases hidf : f0.id = p.1
        · exfalso
          rw [if_pos (by simpa using hidf)] at hid
          have hid0 : f0.id = fc.1 := hid
          exact h3 p (List.mem_cons_self p ps) fc hfc (by rw [← hidf, hid0])
        · rw [if_neg (by simpa using hidf)] at hid ⊢
          exact h1 fc hfc f0 hf0 hid
      · intro q hq f hf hid
        unfold updateFacePerson at hf
        rcases List.mem_map.mp hf with ⟨f0, hf0, rfl⟩
        by_cases hidf : f0.id = p.1
        · exfalso
          rw [if_pos (by simpa using hidf)] at hid
          have hid0 : f0.id = q.1 := hid
          exact hphead (List.mem_map.mpr ⟨q, hq, hid0 ▸ hidf⟩)
        · rw [if_neg (by simpa using hidf)] at hid ⊢
          exact h2 q (List.mem_cons_of_mem p hq) f0 hf0 hid
      · intro q hq u hu
        exact h3 q (List.mem_cons_of_mem p hq) u hu
      · exact h4'

theorem mineStep_eq (numCents : Nat) (ids : List Nat)
    (labels : List (Option Nat)) (d : DB) (c : Nat) (cid : Nat) :
    mineStep numCents ids labels (d, c) cid
      = ({ faces := assignAll d.faces (memberIds ids labels cid) d.nextPersonId,
           persons := d.persons ++
             [{ id := d.nextPersonId,
                name := "Person " ++ toString (numCents + c + 1),
                confirmed := false }],
           nextPersonId := d.nextPersonId + 1 }, c + 1) := rfl

/-- Phase 2 on a mutually-similar unmatched set of size at least
`min_samples_new` creates exactly one new unconfirmed person (named after
the centroid count) and assigns every unmatched face to it. -/
theorem phase2_single_cluster (sim : Sim) (minNew numCents : Nat)
    (unm : List (Nat × List ℚ)) (d : DB)
    (h1 : 1 ≤ unm.length) (hge : minNew ≤ unm.length)
    (hsims : ∀ u ∈ unm, ∀ u' ∈ unm, 1 - sim u.2 u'.2 ≤ 2/5) :
    phase2 sim minNew numCents unm d
      = ({ faces := d.faces.map (fun f =>
              if f.id ∈ unm.map (fun u => u.1)
              then { f with personId := some d.nextPersonId } else f),
           persons := d.persons ++
             [{ id := d.nextPersonId,
                name := "Person " ++ toString (numCents + 1),
                confirmed := false }],
           nextPersonId := d.nextPersonId + 1 }, 1) := by
  have hlen : (unm.map (fun u => u.2)).length = unm.length := List.length_map _ _
  have hsim' : ∀ i, i < (unm.map (fun u => u.2)).length →
      ∀ j, j < (unm.map (fun u => u.2)).length →
      1 - sim (vget (unm.map (fun u => u.2)) i)
        (vget (unm.map (fun u => u.2)) j) ≤ 2/5 := by
    intro i hi j hj
    rcases List.mem_map.mp (vget_mem _ i hi) with ⟨u, hu, hui⟩
    rcases List.mem_map.mp (vget_mem _ j hj) with ⟨u', hu', huj⟩
    rw [← hui, ← huj]
    exact hsims u hu u' hu'
  have hl := dbscan_single_cluster sim (2/5 : ℚ) minNew
    (unm.map (fun u => u.2)) (by rw [hlen]; exact h1)
    (by rw [hlen]; exact hge) hsim'
  rw [hlen] at hl
  unfold phase2
  rw [if_pos hge, hl, uniqLabels_replicate unm.length h1]
  have hmids : memberIds (unm.map (fun u => u.1))
      (List.replicate unm.length (some 0)) 0 = unm.map (fun u => u.1) := by
    have h2 : unm.length = (unm.map (fun u => u.1)).length :=
      (List.length_map _ _).symm
    rw [h2]
    exact memberIds_replicate _
  rw [show (List.foldl (mineStep numCents (unm.map (fun u => u.1))
      (List.replicate unm.length (some 0))) (d, 0) [0])
      = mineStep numCents (unm.map (fun u => u.1))
        (List.replicate unm.length (some 0)) (d, 0) 0 from rfl]
  rw [mineStep_eq, hmids, assignAll_eq_map]

/-- The Phase-1 result of `cluster_new_faces` on a store. -/
def p1res (sim : Sim) (thr : ℚ) (db : DB) : P1Acc :=
  phase1 sim thr (buildCentroids (existingData db))
    (facePairs (newFacesQuery db)) db.faces

/-- Witness store for C5: one person (face 1) and one unassigned face 2
that does not clear the threshold, so it stays unmatched; with
`min_samples_new = 1` it then founds a new person. -/
def w5db : DB :=
  { faces := [mkFace 1 (some [1]) (some 1) false, mkFace 2 (some [2]) none false],
    persons := [{ id := 1, name := "Person 1", confirmed := false }],
    nextPersonId := 2 }

/-- Claim C5: when `cluster_new_faces` ends its matching phase with fewer
than `min_samples_new` unmatched faces, Phase 2 is skipped: the pass
reports zero new persons, the store changes only by the Phase-1
assignments, and every unmatched face still has `person_id = NULL`.  When
the unmatched set has at least `min_samples_new` members and is one dense
group (pairwise cosine distance at most the mining radius `0.4`), exactly
one new unconfirmed person is created and every unmatched face — hence at
least `min_samples_new` of them — is assigned to it. -/
theorem c5_min_samples_gating (sim : Sim) (thr : ℚ) (minNew : Nat) (db : DB)
    (hnf : ¬newFacesQuery db = []) (hrows : ¬existingData db = [])
    (hnodup : (db.faces.map (fun f => f.id)).Nodup) :
    ((p1res sim thr db).unmatched.length < minNew →
      clusterNewFaces sim thr minNew db
        = ({ db with faces := (p1res sim thr db).faces },
          some ((p1res sim thr db).count, 0)) ∧
      (∀ fc ∈ (p1res sim thr db).unmatched, ∀ f ∈ (p1res sim thr db).faces,
        f.id = fc.1 → f.personId = none)) ∧
    (1 ≤ minNew → minNew ≤ (p1res sim thr db).unmatched.length →
      (∀ u ∈ (p1res sim thr db).unmatched, ∀ u' ∈ (p1res sim thr db).unmatched,
        1 - sim u.2 u'.2 ≤ 2/5) →
      (clusterNewFaces sim thr minNew db).1.persons
        = db.persons ++
          [{ id := db.nextPersonId,
             name := "Person " ++
               toString ((buildCentroids (existingData db)).length + 1),
             confirmed := false }] ∧
      (clusterNewFaces sim thr minNew db).2
        = some ((p1res sim thr db).count, 1) ∧
      (∀ f ∈ (clusterNewFaces sim thr minNew db).1.faces,
        f.id ∈ (p1res sim thr db).unmatched.map (fun u => u.1) →
          f.personId = some db.nextPersonId)) := by
  have hclean : ∀ fc ∈ (p1res sim thr db).unmatched,
      ∀ f ∈ (p1res sim thr db).faces, f.id = fc.1 → f.personId = none := by
    unfold p1res phase1
    apply p1_unmatched_clean
    · intro fc hfc
      exact absurd hfc (List.not_mem_nil fc)
    · intro p hp f hf hid
      rcases List.mem_map.mp hp with ⟨fq, hfq, rfl⟩
      rcases List.mem_filter.mp hfq with ⟨hfqdb, hfqcond⟩
      simp only [Bool.and_eq_true] at hfqcond
      have hfeq : f = fq := List.inj_on_of_nodup_map hnodup hf hfqdb hid
      rw [hfeq]
      exact Option.isNone_iff_eq_none.mp hfqcond.2
    · intro p hp u hu
      exact absurd hu (List.not_mem_nil u)
    · have hsub : List.Sublist ((newFacesQuery db).map (fun f => f.id))
          (db.faces.map (fun f => f.id)) :=
        List.Sublist.map _ (List.filter_sublist db.faces)
      have hnodup2 : ((newFacesQuery db).map (fun f => f.id)).Nodup :=
        List.Nodup.sublist hsub hnodup
      have heq : (facePairs (newFacesQuery db)).map (fun u => u.1)
          = (newFacesQuery db).map (fun f => f.id) := by
        unfold facePairs
        rw [List.map_map]
        rfl
      rw [heq]
      exact hnodup2
  constructor
  · intro hlt
    have hskip : phase2 sim minNew (buildCentroids (existingData db)).length
        (p1res sim thr db).unmatched { db with faces := (p1res sim thr db).faces }
        = ({ db with faces := (p1res sim thr db).faces }, 0) := by
      unfold phase2
      rw [if_neg (by omega)]
    refine ⟨?_, hclean⟩
    rw [clusterNewFaces_run sim thr minNew db hnf hrows]
    show ((phase2 sim minNew (buildCentroids (existingData db)).length
        (p1res sim thr db).unmatched
        { db with faces := (p1res sim thr db).faces }).1,
      some ((p1res sim thr db).count,
        (phase2 sim minNew (buildCentroids (existingData db)).length
          (p1res sim thr db).unmatched
          { db with faces := (p1res sim thr db).faces }).2)) = _
    rw [hskip]
  · intro h1min hge hsims
    have h1 : 1 ≤ (p1res sim thr db).unmatched.length := le_trans h1min hge
    have hp2 := phase2_single_cluster sim minNew
      (buildCentroids (existingData db)).length (p1res sim thr db).unmatched
      { db with faces := (p1res sim thr db).faces } h1 hge hsims
    have hrun : clusterNewFaces sim thr minNew db
        = ((phase2 sim minNew (buildCentroids (existingData db)).length
            (p1res sim thr db).unmatched
            { db with faces := (p1res sim thr db).faces }).1,
          some ((p1res sim thr db).count,
            (phase2 sim minNew (buildCentroids (existingData db)).length
              (p1res sim thr db).unmatched
              { db with faces := (p1res sim thr db).faces }).2)) :=
      clusterNewFaces_run sim thr minNew db hnf hrows
    rw [hp2] at hrun
    refine ⟨by rw [hrun], by rw [hrun], ?_⟩
    intro f hf hmem
    rw [hrun] at hf
    rcases List.mem_map.mp hf with ⟨f0, hf0, rfl⟩
    by_cases hin : f0.id ∈ (p1res sim thr db).unmatched.map (fun u => u.1)
    · rw [if_pos hin]
    · rw [if_neg hin] at hmem ⊢
      exact absurd hmem hin

/-- Witness for C5: with threshold `3/5` face 2 stays unmatched
(similarity `1/2`); with `min_samples_new = 1` the dense group `{face 2}`
founds exactly one new person (id 2, named after the one existing
centroid), and face 2 is assigned to it. -/
theorem c5_min_samples_gating_witness :
    (clusterNewFaces simW (3/5) 1 w5db).1.persons
      = w5db.persons ++
        [{ id := w5db.nextPersonId,
           name := "Person " ++
             toString ((buildCentroids (existingData w5db)).length + 1),
           confirmed := false }] ∧
    (clusterNewFaces simW (3/5) 1 w5db).2
      = some ((p1res simW (3/5) w5db).count, 1) ∧
    (∀ f ∈ (clusterNewFaces simW (3/5) 1 w5db).1.faces,
      f.id ∈ (p1res simW (3/5) w5db).unmatched.map (fun u => u.1) →
        f.personId = some w5db.nextPersonId) :=
  (c5_min_samples_gating simW (3/5) 1 w5db (by decide) (by decide)
    (by decide)).2 (by decide) (by decide) (by decide)

/-- Witness for C8: two persons with ids 1 and 2 are tied at similarity
`1/2 > 2/5`; the face is assigned to person 1. -/
theorem c8_tie_lowest_id_witness :
    ∃ w cw, (w, cw) ∈ w8acc.cents ∧ simW [2] cw = simW [2] [1] ∧
      (∀ c' ∈ w8acc.cents, simW [2] c'.2 = simW [2] [1] → w ≤ c'.1) ∧
      (processFace simW (2/5) w8acc (7, [2])).faces =
        updateFacePerson w8acc.faces 7 (some w) ∧
      (processFace simW (2/5) w8acc (7, [2])).count = w8acc.count + 1 :=
  c8_tie_lowest_id simW (2/5) w8acc (7, [2]) (by decide) (by decide)
    (by decide) (1, [1]) (by decide) (by decide) (by decide) (by decide)

end FaceRec
